import Mathlib

/-!
Verification development for the ansible-ds 389ds configuration module
(`plugins/module_utils/ds389_util.py`, `plugins/module_utils/ds389_entities.py`,
`plugins/modules/ds389_module.py`).

The Python sources are shallowly embedded: dictionaries keyed by the
normalizable `Key` class become association lists looked up through the
normalization function, exceptions become `Except`, and the reconciler's
side effects (ldap writes, replica promotions) become explicitly returned
event lists.
-/

set_option maxHeartbeats 1000000

namespace Ds389

/-! ## Key normalization (`ds389_util.Key`)

`Key.__init__` computes `ldap.dn.dn2str(ldap.dn.str2dn(astring.lower()))` and
falls back to plain lowercasing when the string does not parse as a DN.
The DN parser is embedded in simplified form (no escape sequences): a DN is a
comma separated list of `attr=value` components, spaces around the attribute
and the value are trimmed, and the canonical rendering joins the trimmed
components with `,` and `=` and no spaces. -/

/-- Run of `n` spaces. -/
def pad (n : Nat) : List Char := List.replicate n ' '

/-- Trim ASCII spaces from both ends of a character list. -/
def trimSpaces (l : List Char) : List Char :=
  ((l.dropWhile (fun c => c = ' ')).reverse.dropWhile (fun c => c = ' ')).reverse

/-- Split a character list on commas (`str2dn` component splitting). -/
def splitComma : List Char → List (List Char)
  | [] => [[]]
  | c :: cs =>
    match splitComma cs with
    | [] => [[]]
    | p :: ps => if c = ',' then [] :: p :: ps else (c :: p) :: ps

/-- Split an RDN component at its first `=` sign; `none` if there is none
(which makes the whole DN parse fail, as `ldap.dn.str2dn` raises
`DECODING_ERROR`). -/
def splitEq : List Char → Option (List Char × List Char)
  | [] => none
  | c :: cs =>
    if c = '=' then some ([], cs)
    else
      match splitEq cs with
      | none => none
      | some (a, v) => some (c :: a, v)

/-- Parse one `attr=value` component, trimming spaces around both parts. -/
def parseComp (l : List Char) : Option (List Char × List Char) :=
  match splitEq l with
  | none => none
  | some (a, v) => some (trimSpaces a, trimSpaces v)

/-- Embedded `ldap.dn.str2dn`: the empty string parses to the empty DN,
otherwise every comma separated component must contain an `=`. -/
def str2dn (l : List Char) : Option (List (List Char × List Char)) :=
  if l = [] then some [] else (splitComma l).mapM parseComp

/-- Embedded `ldap.dn.dn2str`: join components with `=` and `,`. -/
def dn2str (rdns : List (List Char × List Char)) : List Char :=
  List.intercalate [','] (rdns.map (fun p => p.1 ++ '=' :: p.2))

/-- `Key.normalized` on character lists: lowercase, then DN-canonicalize,
falling back to the lowercased string when DN parsing fails. -/
def normChars (l : List Char) : List Char :=
  let low := l.map Char.toLower
  match str2dn low with
  | some rdns => dn2str rdns
  | none => low

/-- `Key.normalized`. -/
def normKey (s : String) : String :=
  ⟨normChars s.data⟩

/-- `Key.__eq__`: two keys are equal iff their normalized forms are equal. -/
def keyEq (a b : String) : Bool :=
  normKey a == normKey b

/-- `Key.__hash__` hashes the normalized string. -/
def keyHash (s : String) : UInt64 :=
  (normKey s).hash

/-! ## Values appearing in diff dictionaries

`DiffResult.addModifier` appends heterogeneous Python values to the leaf
lists: `None` (delete-all marker), `True` (full-removal marker), strings
(`Key`), or a whole value list (the `REPLACEVALUE` case stores `a1`). -/

inductive PyVal where
  | none
  | bool (b : Bool)
  | str (s : String)
  | list (l : List String)
  deriving Repr, DecidableEq, BEq

/-! ## Dictionaries keyed by `Key`

Python dicts whose keys are `Key` objects hash and compare keys through
`Key.normalized`; they are embedded as association lists looked up through
the normalization. Insertion order is preserved, as in Python. -/

/-- Lookup in a `Key`-keyed dict. -/
def kfind (m : List (String × α)) (k : String) : Option α :=
  (m.find? (fun p => keyEq p.1 k)).map Prod.snd

/-- Membership test in a `Key`-keyed dict (`key in adict`). -/
def kmem (m : List (String × α)) (k : String) : Bool :=
  (kfind m k).isSome

/-! ## `Entry` (`ds389_util.Entry` over `LdapOp`)

An entry holds a DN and a `Key`-keyed dict from attribute name to the list
of values; `LdapOp.add_value` refuses duplicate values
(`ldap.TYPE_OR_VALUE_EXISTS`), so construction is fallible. -/

structure Entry where
  dn : String
  attrs : List (String × List String)
  deriving Repr, DecidableEq

namespace Entry

/-- `LdapOp.getValues`: the value list of an attribute, `[]` when absent. -/
def getValues (e : Entry) (attr : String) : List String :=
  (kfind e.attrs attr).getD []

/-- `Entry.hasAttr`. -/
def hasAttr (e : Entry) (attr : String) : Bool :=
  kmem e.attrs attr

/-- `Entry.hasValue`: the attribute is present and its value list contains
the value (comparison through `Key` normalization). -/
def hasValue (e : Entry) (attr val : String) : Bool :=
  match kfind e.attrs attr with
  | some vs => vs.any (fun v => keyEq v val)
  | none => false

/-- `Entry.get`: the value list, or `None` when the attribute is absent. -/
def get (e : Entry) (attr : String) : Option (List String) :=
  kfind e.attrs attr

/-- Static `Entry.get_values(entry, attr)`: `None` when the entry is `None`
or lacks the attribute. -/
def get_values (e : Option Entry) (attr : String) : Option (List String) :=
  match e with
  | some e => e.get attr
  | none => none

/-- `Entry.getAttributes` (the dict keys, in insertion order). -/
def getAttributes (e : Entry) : List String :=
  e.attrs.map Prod.fst

end Entry

/-- `LdapOp.add_value`: appends `val` under `attr`, creating the attribute
slot if needed and raising `ldap.TYPE_OR_VALUE_EXISTS` on a duplicate
value. -/
def addValue (attrs : List (String × List String)) (attr val : String) :
    Except String (List (String × List String)) :=
  match attrs with
  | [] => .ok [(attr, [val])]
  | (a, vs) :: rest =>
    if keyEq a attr then
      if vs.any (fun v => keyEq v val) then
        .error "TYPE_OR_VALUE_EXISTS"
      else
        .ok ((a, vs ++ [val]) :: rest)
    else do
      let rest ← addValue rest attr val
      .ok ((a, vs) :: rest)

/-- `LdapOp.add_values`: add each value of a list in turn. -/
def addValuesL (attrs : List (String × List String)) (attr : String)
    (vals : List String) : Except String (List (String × List String)) :=
  vals.foldlM (fun m v => addValue m attr v) attrs

/-- `Entry.__init__(dn, attributes)`: build the attribute dict by repeated
`add_values`. -/
def mkEntry (dn : String) (pairs : List (String × List String)) :
    Except String Entry := do
  let attrs ← pairs.foldlM (fun m p => addValuesL m p.1 p.2) []
  .ok ⟨dn, attrs⟩

/-! ## The `hasSameAttributes` comparison (`ds389_util.Entry.hasSameAttributes`)

The source compares `self.op.getValues(attr).sort() !=
entry.op.getValues(attr).sort()`. Python's `list.sort` sorts in place and
returns `None`, so both sides of the comparison are `None`. -/

/-- The value Python's `list.sort()` returns (always `None`). -/
def pyListSortReturn (_ : List String) : PyVal :=
  PyVal.none

/-- `Entry.hasSameAttributes(entry, attrlist)` for a non-`None` attrlist:
returns `False` as soon as the sort-return values differ, `True`
otherwise. -/
def hasSameAttributes (e other : Entry) (attrlist : List String) : Bool :=
  attrlist.all (fun attr =>
    pyListSortReturn (e.getValues attr) == pyListSortReturn (other.getValues attr))

/-- `ConfigInstance.isAttrUpToDate(entry, attr, vals)`: `True` for a missing
entry, otherwise compares against a freshly built single-attribute entry. -/
def isAttrUpToDate (entry : Option Entry) (attr : String) (vals : List String) :
    Except String Bool :=
  match entry with
  | none => .ok true
  | some e =>
    match mkEntry e.dn [(attr, vals)] with
    | .error err => .error err
    | .ok e2 => .ok (hasSameAttributes e e2 [attr])

/-- One staged ldap write of `ConfigInstance.filterOps`. -/
structure StagedOp where
  op : String
  dn : String
  attr : String
  vals : List String
  deriving Repr, DecidableEq

/-- `ConfigInstance._filter_ops_replace_value_cb`: for an existing entry,
emit a replace op only for attributes that are not already up to date. -/
def filterOpsReplaceValueCb (entry : Option Entry) (dn : String)
    (ldapop : List (String × List String)) (ops : List StagedOp) :
    Except String (List StagedOp) :=
  match entry with
  | none => .ok ops
  | some e =>
    ldapop.foldlM
      (fun ops p =>
        match isAttrUpToDate (some e) p.1 p.2 with
        | .error err => .error err
        | .ok upToDate =>
          if upToDate then .ok ops
          else .ok (ops ++ [⟨"ReplaceValues", dn, p.1, p.2⟩]))
      ops

/-! ## `DiffResult` (`ds389_util.DiffResult`)

`result` is the nested dict `{ dn : { action : { attr : [val] } } }`. The
outer dict is keyed by `Key` (DN), the action level by the plain action
strings, and the attribute level by `Key` again — except that the
`deleteEntry` branch of `addModifier` uses the fixed slot `"fullRemoval"`
and appends Python `True`. An attribute key can also be Python `None`
(`addAction(DELETEENTRY, dn, None, None)`), hence `Option String`. -/

def ADDENTRY : String := "addEntry"
def DELETEENTRY : String := "deleteEntry"
def ADDVALUE : String := "addValue"
def DELETEVALUE : String := "deleteValue"
def REPLACEVALUE : String := "replaceValue"

/-- Equality of attribute-level dict keys: `None` equals `None`, strings
compare through `Key` normalization. -/
def okeyEq : Option String → Option String → Bool
  | none, none => true
  | some a, some b => keyEq a b
  | _, _ => false

/-- Attribute level of a `DiffResult`: attr (or `fullRemoval`) → values. -/
def AttrVals := List (Option String × List PyVal)

/-- Action level of a `DiffResult`: action name → attribute dict. -/
def ActM := List (String × AttrVals)

/-- A whole `DiffResult.result`: DN → action dict. -/
def DTree := List (String × ActM)

/-- Python dict update at a key: apply `f` to the slot (`getDict`/`getList`
create the slot with `init` when absent, then the `[...]`/`append` call
mutates it in place). Matching uses the dict's key equality `keq`. -/
def dictUpd {κ α : Type} (keq : κ → κ → Bool) (f : α → α) (init : α) :
    List (κ × α) → κ → List (κ × α)
  | [], k => [(k, f init)]
  | (k0, a) :: rest, k =>
    if keq k0 k then (k0, f a) :: rest
    else (k0, a) :: dictUpd keq f init rest k

/-- Python dict lookup (first matching key). -/
def dget {κ α : Type} (keq : κ → κ → Bool) (m : List (κ × α)) (k : κ) :
    Option α :=
  (m.find? (fun p => keq p.1 k)).map Prod.snd

/-- Append a value under an attribute key (`getList(...).append(val)`). -/
def alAdd (al : AttrVals) (k : Option String) (v : PyVal) : AttrVals :=
  dictUpd okeyEq (fun vs => vs ++ [v]) [] al k

/-- Append a value inside an action slot (`getDict(adict, action)`). -/
def amAdd (am : ActM) (a : String) (k : Option String) (v : PyVal) : ActM :=
  dictUpd (fun x y => x == y) (fun al => alAdd al k v) [] am a

/-- Append a value inside a DN slot (`getDict(adict, dn)`). -/
def treeAdd (t : DTree) (dn a : String) (k : Option String) (v : PyVal) : DTree :=
  dictUpd keyEq (fun am => amAdd am a k v) [] t dn

/-- `DiffResult.addModifier`: the `deleteEntry` action records
`True` under the `fullRemoval` slot, everything else appends the value
under the attribute. -/
def addModifier (t : DTree) (dn action : String) (attr : Option String)
    (val : PyVal) : DTree :=
  if action == DELETEENTRY then
    treeAdd t dn action (some "fullRemoval") (PyVal.bool true)
  else
    treeAdd t dn action attr val

/-- `DiffResult.addAction`. -/
def addAction (t : DTree) (action dn : String) (attr : Option String)
    (val : PyVal) : DTree :=
  addModifier t dn action attr val

/-- Attribute-level lookup. -/
def alGet (m : AttrVals) (k : Option String) : Option (List PyVal) :=
  dget okeyEq m k

/-- Action-level lookup. -/
def amGet (m : ActM) (a : String) : Option AttrVals :=
  dget (fun x y => x == y) m a

/-- DN-level lookup. -/
def tGet (t : DTree) (dn : String) : Option ActM :=
  dget keyEq t dn

/-- The values recorded for a DN, action and attribute (empty when none). -/
def tVals (t : DTree) (dn action : String) (attr : Option String) : List PyVal :=
  (((tGet t dn).bind (fun am => amGet am action)).bind (fun al => alGet al attr)).getD []

/-- Python `==` between the two optional `Key` lists of `diffAttr`
(`a1 != a2` negated): `None == None`, and lists compare element-wise with
`Key` equality. -/
def pyEqOptLists : Option (List String) → Option (List String) → Bool
  | none, none => true
  | some l1, some l2 =>
    l1.length == l2.length && (List.zip l1 l2).all (fun p => keyEq p.1 p.2)
  | _, _ => false

/-- `DiffResult.diffAttr(attr, e1, e2)`. The final catch-all arm is
unreachable: `a1 = some _` forces `e1 = some _`, and symmetrically. -/
def diffAttr (attr : String) (e1? e2? : Option Entry) (t : DTree) : DTree :=
  let a1 := Entry.get_values e1? attr
  let a2 := Entry.get_values e2? attr
  if pyEqOptLists a1 a2 then t
  else
    match e1?, a1, e2?, a2 with
    | _, none, some e2, _ =>
      addAction t DELETEVALUE e2.dn (some attr) PyVal.none
    | some e1, some vs1, _, none =>
      vs1.foldl (fun t v => addAction t ADDVALUE e1.dn (some attr) (.str v)) t
    | some e1, some vs1, some e2, some vs2 =>
      if vs1.length == 1 && vs2.length == 1 then
        addAction t REPLACEVALUE e1.dn (some attr) (.list vs1)
      else
        let t := vs1.foldl
          (fun t v =>
            if e2.hasValue attr v then t
            else addAction t ADDVALUE e1.dn (some attr) (.str v)) t
        vs2.foldl
          (fun t v =>
            if e1.hasValue attr v then t
            else addAction t DELETEVALUE e1.dn (some attr) (.str v)) t
    | _, _, _, _ => t

/-- `DiffResult.diffEntry(e1, e2)`: both entries `None` raises
(`None.getDN()` does not exist). In the add-entry arm the inner
`e1.get attr` cannot be `none` since `attr` ranges over `e1`'s own keys. -/
def diffEntry (e1? e2? : Option Entry) (t : DTree) : Except String DTree :=
  match e1?, e2? with
  | none, some e2 => .ok (addAction t DELETEENTRY e2.dn none PyVal.none)
  | none, none => .error "AttributeError: NoneType object has no getDN"
  | some e1, none =>
    .ok (e1.getAttributes.foldl
      (fun t attr =>
        ((e1.get attr).getD []).foldl
          (fun t v => addAction t ADDENTRY e1.dn (some attr) (.str v)) t)
      t)
  | some e1, some e2 =>
    let t := e1.getAttributes.foldl
      (fun t attr => diffAttr attr (some e1) (some e2) t) t
    .ok (e2.getAttributes.foldl
      (fun t attr => if e1.hasAttr attr then t else diffAttr attr none (some e2) t)
      t)

/-- `DiffResult.getValue(adict, key)`. -/
def getValue (adict : List (String × Entry)) (key : String) : Option Entry :=
  kfind adict key

/-- `DiffResult.diff(entry1Dict, entry2Dict)`: union of DNs (first dict
first, second dict's novel DNs after), then `diffEntry` per DN. -/
def diff (d1 d2 : List (String × Entry)) (t : DTree) : Except String DTree :=
  let dns1 := d1.map (fun p => p.2.dn)
  let dns2 := (d2.map (fun p => p.2.dn)).filter
    (fun dn => !(dns1.any (fun d => keyEq d dn)))
  (dns1 ++ dns2).foldlM (fun t dn => diffEntry (getValue d1 dn) (getValue d2 dn) t) t

/-! ## Basic lemmas about keys and dictionaries -/

theorem keyEq_refl (a : String) : keyEq a a = true := by
  simp [keyEq]

theorem zip_self_all_keyEq (l : List String) :
    (List.zip l l).all (fun p => keyEq p.1 p.2) = true := by
  induction l with
  | nil => rfl
  | cons x xs ih => simp [List.zip_cons_cons, List.all_cons, keyEq_refl, ih]

theorem pyEqOptLists_refl (a : Option (List String)) : pyEqOptLists a a = true := by
  cases a with
  | none => rfl
  | some l => simp [pyEqOptLists, zip_self_all_keyEq]

theorem kfind_isSome_map {α : Type} (m : List (String × α)) (k : String)
    (h : (m.find? (fun p => keyEq p.1 k)).isSome) : (kfind m k).isSome := by
  simp only [kfind]
  obtain ⟨v, hv⟩ := Option.isSome_iff_exists.mp h
  rw [hv]
  rfl

theorem hasAttr_of_mem_getAttributes (e : Entry) (attr : String)
    (h : attr ∈ e.getAttributes) : e.hasAttr attr = true := by
  simp only [Entry.getAttributes, List.mem_map] at h
  obtain ⟨p, hp, hfst⟩ := h
  simp only [Entry.hasAttr, kmem]
  apply kfind_isSome_map
  rw [List.find?_isSome]
  exact ⟨p, hp, by rw [hfst]; exact keyEq_refl _⟩

theorem foldl_fixed {α β : Type} (l : List α) (f : β → α → β) (t : β)
    (h : ∀ t a, a ∈ l → f t a = t) : l.foldl f t = t := by
  induction l generalizing t with
  | nil => rfl
  | cons x xs ih =>
    simp only [List.foldl_cons]
    rw [h t x (by simp), ih]
    intro t a ha
    exact h t a (by simp [ha])

/-! ## C4: diffing a snapshot against itself -/

theorem diffAttr_self (attr : String) (e : Entry) (t : DTree) :
    diffAttr attr (some e) (some e) t = t := by
  simp [diffAttr, pyEqOptLists_refl]

theorem diffEntry_self (e : Entry) (t : DTree) :
    diffEntry (some e) (some e) t = .ok t := by
  simp only [diffEntry]
  rw [foldl_fixed _ _ _ (fun t attr _ => diffAttr_self attr e t)]
  rw [foldl_fixed]
  intro t attr ha
  rw [hasAttr_of_mem_getAttributes e attr ha]
  simp

/-- Snapshot well-formedness: every stored key of the DN→entry dict
normalizes like the entry's own DN (guaranteed by the `DSE` constructor,
which stores `self.dn2entry[e.getDN()] = e`). -/
def wfSnap (d : List (String × Entry)) : Prop :=
  ∀ p ∈ d, normKey p.1 = normKey p.2.dn

theorem getValue_isSome_of_wf (d : List (String × Entry)) (hwf : wfSnap d)
    (p : String × Entry) (hp : p ∈ d) : (getValue d p.2.dn).isSome := by
  simp only [getValue]
  apply kfind_isSome_map
  rw [List.find?_isSome]
  refine ⟨p, hp, ?_⟩
  simp [keyEq, hwf p hp]

theorem foldlM_ok_fixed (dns : List String)
    (f : DTree → String → Except String DTree)
    (h : ∀ dn ∈ dns, f [] dn = .ok []) :
    dns.foldlM f ([] : DTree) = .ok [] := by
  induction dns with
  | nil => rfl
  | cons x xs ih =>
    simp only [List.foldlM_cons]
    rw [h x (by simp)]
    exact ih (fun dn hdn => h dn (by simp [hdn]))

/-- C4 — Diffing a snapshot against itself produces an empty result: for
every snapshot `S` (well formed as produced by the `DSE` reader),
`Diff(S, S)` contains no action for any DN. -/
theorem c4_diff_self_empty (d : List (String × Entry)) (hwf : wfSnap d) :
    diff d d [] = .ok [] := by
  simp only [diff]
  have hfilter :
      (d.map (fun p => p.2.dn)).filter
        (fun dn => !((d.map (fun p => p.2.dn)).any (fun x => keyEq x dn))) = [] := by
    rw [List.filter_eq_nil_iff]
    intro dn hdn
    have : (d.map (fun p => p.2.dn)).any (fun x => keyEq x dn) = true := by
      rw [List.any_eq_true]
      exact ⟨dn, hdn, keyEq_refl dn⟩
    simp [this]
  rw [hfilter, List.append_nil]
  apply foldlM_ok_fixed
  intro dn hdn
  simp only [List.mem_map] at hdn
  obtain ⟨p, hp, hdn⟩ := hdn
  have := getValue_isSome_of_wf d hwf p hp
  rw [hdn] at this
  obtain ⟨e, he⟩ := Option.isSome_iff_exists.mp this
  rw [he]
  exact diffEntry_self e []

/-- Witness for C4 at a concrete snapshot. -/
theorem c4_diff_self_empty_witness :
    diff [("cn=Config", ⟨"CN=config", [("cn", ["config"])]⟩)]
         [("cn=Config", ⟨"CN=config", [("cn", ["config"])]⟩)] [] = .ok [] :=
  c4_diff_self_empty _ (by simp only [wfSnap]; decide)

/-! ## Lemmas about dictionary update and lookup -/

theorem keyEq_symm (a b : String) : keyEq a b = keyEq b a := by
  by_cases h : normKey a = normKey b
  · simp [keyEq, h]
  · have h2 : ¬normKey b = normKey a := fun hh => h hh.symm
    simp [keyEq, h, h2]

theorem keyEq_trans {a b c : String} (h1 : keyEq a b = true)
    (h2 : keyEq b c = true) : keyEq a c = true := by
  simp only [keyEq, beq_iff_eq] at *
  exact h1.trans h2

theorem okeyEq_symm (a b : Option String) : okeyEq a b = okeyEq b a := by
  cases a <;> cases b <;> simp [okeyEq, keyEq_symm]

theorem okeyEq_trans {a b c : Option String} (h1 : okeyEq a b = true)
    (h2 : okeyEq b c = true) : okeyEq a c = true := by
  cases a <;> cases b <;> cases c <;> simp_all [okeyEq]
  exact keyEq_trans h1 h2

theorem dget_nil {κ α : Type} (keq : κ → κ → Bool) (k : κ) :
    dget keq ([] : List (κ × α)) k = none :=
  rfl

theorem dget_cons {κ α : Type} (keq : κ → κ → Bool) (k0 : κ) (a : α)
    (rest : List (κ × α)) (k' : κ) :
    dget keq ((k0, a) :: rest) k' =
      if keq k0 k' then some a else dget keq rest k' := by
  cases h : keq k0 k' <;> simp [dget, List.find?, h]

/-- Lookup after update, for any symmetric and transitive key equality:
the updated key's slot gets `f` applied (with `init` substituted when the
slot did not exist), every other slot is untouched. -/
theorem dget_dictUpd {κ α : Type} (keq : κ → κ → Bool)
    (hsymm : ∀ a b, keq a b = keq b a)
    (htrans : ∀ {a b c}, keq a b = true → keq b c = true → keq a c = true)
    (f : α → α) (init : α) (m : List (κ × α)) (k k' : κ) :
    dget keq (dictUpd keq f init m k) k' =
      if keq k k' then some (f ((dget keq m k').getD init)) else dget keq m k' := by
  induction m with
  | nil =>
    by_cases h : keq k k' = true
    · simp [dictUpd, dget_cons, dget_nil, h]
    · have hf : keq k k' = false := by revert h; cases keq k k' <;> simp
      simp [dictUpd, dget_cons, dget_nil, hf]
  | cons p rest ih =>
    obtain ⟨k0, a⟩ := p
    by_cases h0 : keq k0 k = true
    · by_cases hkk : keq k k' = true
      · have h0k' : keq k0 k' = true := htrans h0 hkk
        simp [dictUpd, dget_cons, h0, hkk, h0k']
      · have h0k' : keq k0 k' = false := by
          by_contra hc
          have hc : keq k0 k' = true := by revert hc; cases keq k0 k' <;> simp
          have hk0 : keq k' k0 = true := by rw [hsymm]; exact hc
          have : keq k k' = true := by
            rw [hsymm]
            exact htrans hk0 h0
          exact hkk this
        have hkkf : keq k k' = false := by revert hkk; cases keq k k' <;> simp
        simp [dictUpd, dget_cons, h0, hkkf, h0k']
    · have h0f : keq k0 k = false := by revert h0; cases keq k0 k <;> simp
      by_cases hkk : keq k k' = true
      · have h0k' : keq k0 k' = false := by
          by_contra hc
          have hc : keq k0 k' = true := by revert hc; cases keq k0 k' <;> simp
          have : keq k0 k = true := htrans hc (by rw [hsymm]; exact hkk)
          rw [this] at h0f
          exact Bool.true_eq_false.mp h0f
        simp [dictUpd, dget_cons, h0f, hkk, h0k', ih]
      · have hkkf : keq k k' = false := by revert hkk; cases keq k k' <;> simp
        by_cases h0k' : keq k0 k' = true
        · simp [dictUpd, dget_cons, h0f, hkkf, h0k']
        · have h0k'f : keq k0 k' = false := by revert h0k'; cases keq k0 k' <;> simp
          simp [dictUpd, dget_cons, h0f, hkkf, h0k'f, ih]

theorem strEq_symm (a b : String) : (a == b) = (b == a) := by
  by_cases h : a = b <;> simp [h]
  exact fun hh => h hh.symm

theorem strEq_trans {a b c : String} (h1 : (a == b) = true)
    (h2 : (b == c) = true) : (a == c) = true := by
  simp only [beq_iff_eq] at *
  exact h1.trans h2

theorem alGet_nil (k : Option String) : alGet [] k = none :=
  rfl

theorem amGet_nil (a : String) : amGet [] a = none :=
  rfl

theorem alGet_alAdd (al : AttrVals) (k k' : Option String) (v : PyVal) :
    alGet (alAdd al k v) k' =
      if okeyEq k k' then some (((alGet al k').getD []) ++ [v]) else alGet al k' :=
  dget_dictUpd okeyEq okeyEq_symm (fun h1 h2 => okeyEq_trans h1 h2) _ _ al k k'

theorem amGet_amAdd (am : ActM) (a a' : String) (k : Option String) (v : PyVal) :
    amGet (amAdd am a k v) a' =
      if a == a' then some (alAdd ((amGet am a').getD []) k v) else amGet am a' :=
  dget_dictUpd (fun x y => x == y) strEq_symm (fun h1 h2 => strEq_trans h1 h2) _ _ am a a'

theorem tGet_treeAdd (t : DTree) (dn dn' a : String) (k : Option String) (v : PyVal) :
    tGet (treeAdd t dn a k v) dn' =
      if keyEq dn dn' then some (amAdd ((tGet t dn').getD []) a k v) else tGet t dn' :=
  dget_dictUpd keyEq keyEq_symm (fun h1 h2 => keyEq_trans h1 h2) _ _ t dn dn'

/-- The values recorded in a tree after a `treeAdd`: the targeted
(dn, action, attr) cell gets the value appended, all other cells are
untouched. -/
theorem tVals_treeAdd (t : DTree) (dn dn' a a' : String) (k k' : Option String)
    (v : PyVal) :
    tVals (treeAdd t dn a k v) dn' a' k' =
      if keyEq dn dn' && (a == a') && okeyEq k k' then tVals t dn' a' k' ++ [v]
      else tVals t dn' a' k' := by
  simp only [tVals, tGet_treeAdd]
  by_cases h1 : keyEq dn dn' = true
  · simp only [h1, if_true, Bool.true_and, Option.some_bind, amGet_amAdd]
    by_cases h2 : (a == a') = true
    · simp only [h2, if_true, Bool.true_and, Option.some_bind, alGet_alAdd]
      by_cases h3 : okeyEq k k' = true
      · simp only [h3, if_true]
        cases htg : tGet t dn' with
        | none => simp [htg, amGet_nil, alGet_nil]
        | some am =>
          simp only [htg, Option.getD_some, Option.some_bind]
          cases ham : amGet am a' with
          | none => simp [ham, alGet_nil]
          | some al => simp [ham]
      · have h3f : okeyEq k k' = false := by revert h3; cases okeyEq k k' <;> simp
        simp only [h3f, if_false, Bool.and_false, if_false]
        cases htg : tGet t dn' with
        | none => simp [htg, amGet_nil, alGet_nil]
        | some am =>
          simp only [htg, Option.getD_some, Option.some_bind]
          cases ham : amGet am a' with
          | none => simp [ham, alGet_nil]
          | some al => simp [ham]
    · have h2f : (a == a') = false := by revert h2; cases a == a' <;> simp
      simp only [h2f, if_false, Bool.and_false, Bool.false_and, if_false]
      cases htg : tGet t dn' with
      | none => simp [htg, amGet_nil, alGet_nil]
      | some am => simp [htg]
  · have h1f : keyEq dn dn' = false := by revert h1; cases keyEq dn dn' <;> simp
    simp [h1f]

/-- `addAction` for a non-`deleteEntry` action targets the attr slot. -/
theorem addAction_eq_treeAdd (t : DTree) (action dn : String)
    (attr : Option String) (v : PyVal) (h : (action == DELETEENTRY) = false) :
    addAction t action dn attr v = treeAdd t dn action attr v := by
  simp [addAction, addModifier, h]

/-! ## C5: per-attribute diff of entries present in both snapshots -/

/-- Membership of a value in a value list through `Key` equality. -/
def memK (l : List String) (v : String) : Bool :=
  l.any (fun w => keyEq w v)

/-- Equality of two value lists as (normalized) value sets. -/
def sameValueSet (l1 l2 : List String) : Bool :=
  l1.all (fun v => memK l2 v) && l2.all (fun v => memK l1 v)

theorem memK_of_head {y v : String} (ys : List String) (h : keyEq y v = true) :
    memK (y :: ys) v = true := by
  simp [memK, List.any_cons, h]

theorem memK_of_tail {v : String} (y : String) (ys : List String)
    (h : memK ys v = true) : memK (y :: ys) v = true := by
  simp only [memK, List.any_cons]
  simp only [memK] at h
  simp [h]

/-- Python list equality (element-wise `Key` equality) implies value-set
equality; the diff guard `a1 != a2` therefore fires whenever the two value
sets differ. -/
theorem sameValueSet_of_pyEq :
    ∀ (l1 l2 : List String), pyEqOptLists (some l1) (some l2) = true →
      sameValueSet l1 l2 = true := by
  intro l1
  induction l1 with
  | nil =>
    intro l2 h
    cases l2 with
    | nil => rfl
    | cons y ys => simp [pyEqOptLists] at h
  | cons x xs ih =>
    intro l2 h
    cases l2 with
    | nil => simp [pyEqOptLists] at h
    | cons y ys =>
      simp only [pyEqOptLists, List.length_cons, List.zip_cons_cons,
        List.all_cons, Bool.and_eq_true, beq_iff_eq, Nat.succ_inj] at h
      obtain ⟨hlen, hxy, htail⟩ := h
      have htl : pyEqOptLists (some xs) (some ys) = true := by
        simp [pyEqOptLists, hlen, htail]
      have hss := ih ys htl
      simp only [sameValueSet, Bool.and_eq_true, List.all_eq_true] at hss ⊢
      obtain ⟨hss1, hss2⟩ := hss
      refine ⟨?_, ?_⟩
      · intro v hv
        rcases List.mem_cons.mp hv with hv | hv
        · subst hv
          exact memK_of_head ys (by rw [keyEq_symm]; exact hxy)
        · exact memK_of_tail y ys (hss1 v hv)
      · intro v hv
        rcases List.mem_cons.mp hv with hv | hv
        · subst hv
          exact memK_of_head xs hxy
        · exact memK_of_tail x xs (hss2 v hv)

theorem hasValue_eq_memK (e : Entry) (attr v : String) (vs : List String)
    (h : e.get attr = some vs) : e.hasValue attr v = memK vs v := by
  simp only [Entry.get, Entry.hasValue] at *
  rw [h]
  rfl

theorem tVals_nil (dn a : String) (k : Option String) : tVals [] dn a k = [] :=
  rfl

/-- Effect of a conditional add-value fold on the diff tree: the targeted
cell collects exactly the values that fail the skip condition, in order;
every other cell is untouched. -/
theorem tVals_fold_cond (vs : List String) (c : String → Bool) (A dn : String)
    (attr : String) (t : DTree) (hA : (A == DELETEENTRY) = false)
    (dn' a' : String) (k' : Option String) :
    tVals (vs.foldl
        (fun t v => if c v then t else addAction t A dn (some attr) (.str v)) t)
      dn' a' k' =
      if keyEq dn dn' && (A == a') && okeyEq (some attr) k' then
        tVals t dn' a' k' ++ (vs.filter (fun v => !c v)).map PyVal.str
      else tVals t dn' a' k' := by
  induction vs generalizing t with
  | nil =>
    by_cases h : (keyEq dn dn' && (A == a') && okeyEq (some attr) k') = true
    · simp [h]
    · have hf : (keyEq dn dn' && (A == a') && okeyEq (some attr) k') = false := by
        revert h
        cases keyEq dn dn' && (A == a') && okeyEq (some attr) k' <;> simp
      simp [hf]
  | cons v vs ih =>
    simp only [List.foldl_cons]
    by_cases hc : c v = true
    · rw [if_pos hc, ih, List.filter_cons]
      simp [hc]
    · have hcf : c v = false := by revert hc; cases c v <;> simp
      rw [if_neg (by simp [hcf]), addAction_eq_treeAdd _ _ _ _ _ hA, ih,
        List.filter_cons]
      by_cases h : (keyEq dn dn' && (A == a') && okeyEq (some attr) k') = true
      · simp [h, tVals_treeAdd, hcf, List.append_assoc]
      · have hf : (keyEq dn dn' && (A == a') && okeyEq (some attr) k') = false := by
          revert h
          cases keyEq dn dn' && (A == a') && okeyEq (some attr) k' <;> simp
        simp [hf, tVals_treeAdd, hcf]

/-- C5 — for an attribute present in both entries with differing value
sets: when both sides hold exactly one value, `diffAttr` emits a single
replace-value action (and no add/delete pair); otherwise it emits
element-wise add-value actions for exactly the values of `e1` missing from
`e2` and delete-value actions for exactly the values of `e2` missing from
`e1` — the two halves of the symmetric difference. -/
theorem c5_diffAttr_replace_or_symmdiff :
    (∀ (e1 e2 : Entry) (attr v1 v2 : String),
      e1.get attr = some [v1] → e2.get attr = some [v2] →
      keyEq v1 v2 = false →
      diffAttr attr (some e1) (some e2) [] =
        [(e1.dn, [(REPLACEVALUE, [(some attr, [PyVal.list [v1]])])])]) ∧
    (∀ (e1 e2 : Entry) (attr : String) (vs1 vs2 : List String),
      e1.get attr = some vs1 → e2.get attr = some vs2 →
      sameValueSet vs1 vs2 = false →
      (vs1.length == 1 && vs2.length == 1) = false →
      tVals (diffAttr attr (some e1) (some e2) []) e1.dn ADDVALUE (some attr) =
          (vs1.filter (fun v => !memK vs2 v)).map PyVal.str ∧
      tVals (diffAttr attr (some e1) (some e2) []) e1.dn DELETEVALUE (some attr) =
          (vs2.filter (fun v => !memK vs1 v)).map PyVal.str ∧
      tVals (diffAttr attr (some e1) (some e2) []) e1.dn REPLACEVALUE (some attr) =
          []) := by
  constructor
  · intro e1 e2 attr v1 v2 h1 h2 hne
    have hpy : pyEqOptLists (some [v1]) (some [v2]) = false := by
      simp [pyEqOptLists, hne]
    have hbeq : (REPLACEVALUE == DELETEENTRY) = false := by rfl
    simp [diffAttr, Entry.get_values, h1, h2, hpy, addAction, addModifier,
      hbeq, treeAdd, dictUpd, amAdd, alAdd]
  · intro e1 e2 attr vs1 vs2 h1 h2 hset hlen
    have hpy : pyEqOptLists (some vs1) (some vs2) = false := by
      by_contra hc
      have hc : pyEqOptLists (some vs1) (some vs2) = true := by
        revert hc
        cases pyEqOptLists (some vs1) (some vs2) <;> simp
      rw [sameValueSet_of_pyEq vs1 vs2 hc] at hset
      exact Bool.true_eq_false.mp hset
    have hstep : diffAttr attr (some e1) (some e2) [] =
        vs2.foldl
          (fun t v =>
            if e1.hasValue attr v then t
            else addAction t DELETEVALUE e1.dn (some attr) (.str v))
          (vs1.foldl
            (fun t v =>
              if e2.hasValue attr v then t
              else addAction t ADDVALUE e1.dn (some attr) (.str v)) []) := by
      simp [diffAttr, Entry.get_values, h1, h2, hpy, hlen]
    have hc1 : ∀ v, e2.hasValue attr v = memK vs2 v :=
      fun v => hasValue_eq_memK e2 attr v vs2 h2
    have hc2 : ∀ v, e1.hasValue attr v = memK vs1 v :=
      fun v => hasValue_eq_memK e1 attr v vs1 h1
    have hfilter1 : (fun v => !e2.hasValue attr v) = (fun v => !memK vs2 v) :=
      funext fun v => by rw [hc1 v]
    have hfilter2 : (fun v => !e1.hasValue attr v) = (fun v => !memK vs1 v) :=
      funext fun v => by rw [hc2 v]
    refine ⟨?_, ?_, ?_⟩
    · rw [hstep]
      rw [tVals_fold_cond vs2 (fun v => e1.hasValue attr v) DELETEVALUE e1.dn attr
        _ (by rfl) e1.dn ADDVALUE (some attr)]
      have hdiffact : (DELETEVALUE == ADDVALUE) = false := by rfl
      simp only [hdiffact, Bool.and_false, Bool.false_and]
      rw [if_neg (by simp)]
      rw [tVals_fold_cond vs1 (fun v => e2.hasValue attr v) ADDVALUE e1.dn attr
        [] (by rfl) e1.dn ADDVALUE (some attr)]
      have hcond : (keyEq e1.dn e1.dn && (ADDVALUE == ADDVALUE)
          && okeyEq (some attr) (some attr)) = true := by
        simp [keyEq_refl, okeyEq]
      rw [if_pos hcond, tVals_nil, List.nil_append, hfilter1]
    · rw [hstep]
      rw [tVals_fold_cond vs2 (fun v => e1.hasValue attr v) DELETEVALUE e1.dn attr
        _ (by rfl) e1.dn DELETEVALUE (some attr)]
      have hcond : (keyEq e1.dn e1.dn && (DELETEVALUE == DELETEVALUE)
          && okeyEq (some attr) (some attr)) = true := by
        simp [keyEq_refl, okeyEq]
      rw [if_pos hcond]
      rw [tVals_fold_cond vs1 (fun v => e2.hasValue attr v) ADDVALUE e1.dn attr
        [] (by rfl) e1.dn DELETEVALUE (some attr)]
      have hdiffact : (ADDVALUE == DELETEVALUE) = false := by rfl
      simp only [hdiffact, Bool.and_false, Bool.false_and]
      rw [if_neg (by simp), tVals_nil, List.nil_append, hfilter2]
    · rw [hstep]
      rw [tVals_fold_cond vs2 (fun v => e1.hasValue attr v) DELETEVALUE e1.dn attr
        _ (by rfl) e1.dn REPLACEVALUE (some attr)]
      have hd1 : (DELETEVALUE == REPLACEVALUE) = false := by rfl
      simp only [hd1, Bool.and_false, Bool.false_and]
      rw [if_neg (by simp)]
      rw [tVals_fold_cond vs1 (fun v => e2.hasValue attr v) ADDVALUE e1.dn attr
        [] (by rfl) e1.dn REPLACEVALUE (some attr)]
      have hd2 : (ADDVALUE == REPLACEVALUE) = false := by rfl
      simp only [hd2, Bool.and_false, Bool.false_and]
      rw [if_neg (by simp), tVals_nil]

/-- Witness for C5 at concrete entries: single-valued sides produce one
replace action, and multi-valued sides produce the symmetric difference. -/
theorem c5_diffAttr_witness :
    diffAttr "cn" (some ⟨"cn=a", [("cn", ["x"])]⟩) (some ⟨"cn=a", [("cn", ["y"])]⟩)
        [] =
      [("cn=a", [(REPLACEVALUE, [(some "cn", [PyVal.list ["x"]])])])] ∧
    tVals (diffAttr "oc" (some ⟨"cn=a", [("oc", ["top", "person"])]⟩)
        (some ⟨"cn=a", [("oc", ["top", "device"])]⟩) []) "cn=a" ADDVALUE
        (some "oc") = [PyVal.str "person"] := by
  constructor
  · exact c5_diffAttr_replace_or_symmdiff.1 _ _ "cn" "x" "y" (by rfl) (by rfl)
      (by decide)
  · have h := (c5_diffAttr_replace_or_symmdiff.2 ⟨"cn=a", [("oc", ["top", "person"])]⟩
      ⟨"cn=a", [("oc", ["top", "device"])]⟩ "oc" ["top", "person"] ["top", "device"]
      (by rfl) (by rfl) (by decide) (by decide)).1
    rw [h]
    decide

/-! ## C6: structural invariant of `diff` results -/

/-- The attribute dict recorded for a DN and an action. -/
def aGet2 (t : DTree) (dn a : String) : Option AttrVals :=
  (tGet t dn).bind (fun am => amGet am a)

theorem keyEq_congr_right {dn dn' : String} (h : keyEq dn dn' = true)
    (κ : String) : keyEq κ dn = keyEq κ dn' := by
  by_cases hk : keyEq κ dn = true
  · rw [hk, keyEq_trans hk h]
  · have hkf : keyEq κ dn = false := by revert hk; cases keyEq κ dn <;> simp
    by_cases hk2 : keyEq κ dn' = true
    · have : keyEq κ dn = true := keyEq_trans hk2 (by rw [keyEq_symm]; exact h)
      rw [this] at hkf
      exact absurd hkf (by simp)
    · have hk2f : keyEq κ dn' = false := by revert hk2; cases keyEq κ dn' <;> simp
      rw [hkf, hk2f]

theorem kfind_congr {α : Type} (m : List (String × α)) {dn dn' : String}
    (h : keyEq dn dn' = true) : kfind m dn = kfind m dn' := by
  induction m with
  | nil => rfl
  | cons p rest ih =>
    simp only [kfind, List.find?_cons] at *
    rw [keyEq_congr_right h p.1]
    cases keyEq p.1 dn' <;> simp_all

theorem tGet_congr (t : DTree) {dn dn' : String} (h : keyEq dn dn' = true) :
    tGet t dn = tGet t dn' := by
  induction t with
  | nil => rfl
  | cons p rest ih =>
    obtain ⟨κ, am⟩ := p
    rw [tGet, dget_cons, keyEq_congr_right h κ, tGet, dget_cons] at *
    cases keyEq κ dn' <;> simp_all [tGet]

theorem tVals_congr (t : DTree) {dn dn' : String} (a : String)
    (k : Option String) (h : keyEq dn dn' = true) :
    tVals t dn a k = tVals t dn' a k := by
  simp only [tVals, tGet_congr t h]

theorem aGet2_congr (t : DTree) {dn dn' : String} (a : String)
    (h : keyEq dn dn' = true) : aGet2 t dn a = aGet2 t dn' a := by
  simp only [aGet2, tGet_congr t h]

/-- A `treeAdd` with a different action name leaves every action-level
lookup untouched. -/
theorem aGet2_treeAdd_diffAction (t : DTree) (dn a : String) (k : Option String)
    (v : PyVal) (dnQ a' : String) (ha : (a == a') = false) :
    aGet2 (treeAdd t dn a k v) dnQ a' = aGet2 t dnQ a' := by
  simp only [aGet2, tGet_treeAdd]
  by_cases h : keyEq dn dnQ = true
  · simp only [h, if_true, Option.some_bind, amGet_amAdd, ha]
    rw [if_neg (by simp)]
    cases htg : tGet t dnQ with
    | none => simp [htg, amGet_nil]
    | some am => simp [htg]
  · have hf : keyEq dn dnQ = false := by revert h; cases keyEq dn dnQ <;> simp
    simp [hf]

/-- A `treeAdd` at a different DN leaves the whole bucket untouched. -/
theorem tGet_treeAdd_otherDn (t : DTree) (dn a : String) (k : Option String)
    (v : PyVal) (dnQ : String) (h : keyEq dn dnQ = false) :
    tGet (treeAdd t dn a k v) dnQ = tGet t dnQ := by
  simp [tGet_treeAdd, h]

/-- `treeAdd` only ever appends to leaf lists: cell membership persists. -/
theorem mem_tVals_treeAdd (t : DTree) (dn a : String) (k : Option String)
    (v : PyVal) (dnQ a' : String) (k' : Option String) (x : PyVal)
    (h : x ∈ tVals t dnQ a' k') : x ∈ tVals (treeAdd t dn a k v) dnQ a' k' := by
  rw [tVals_treeAdd]
  by_cases hc : (keyEq dn dnQ && (a == a') && okeyEq k k') = true
  · rw [if_pos hc]
    exact List.mem_append_left _ h
  · rw [if_neg hc]
    exact h

/-- Chains of `treeAdd` writes whose (dn, action) targets satisfy `P`. -/
inductive Writes (P : String → String → Prop) : DTree → DTree → Prop where
  | refl (t : DTree) : Writes P t t
  | step {t t' : DTree} (dn a : String) (k : Option String) (v : PyVal) :
      Writes P t t' → P dn a → Writes P t (treeAdd t' dn a k v)

theorem Writes.trans {P : String → String → Prop} {t1 t2 t3 : DTree}
    (h1 : Writes P t1 t2) (h2 : Writes P t2 t3) : Writes P t1 t3 := by
  induction h2 with
  | refl => exact h1
  | step dn a k v _ hp ih => exact Writes.step dn a k v ih hp

theorem Writes.mono_pred {P Q : String → String → Prop} {t t' : DTree}
    (h : Writes P t t') (hPQ : ∀ dn a, P dn a → Q dn a) : Writes Q t t' := by
  induction h with
  | refl => exact Writes.refl _
  | step dn a k v _ hp ih => exact Writes.step dn a k v ih (hPQ dn a hp)

/-- Writes with actions all different from `a'` preserve `a'` lookups and
`a'` cells. -/
theorem Writes.preserve_action {P : String → String → Prop} {t t' : DTree}
    (h : Writes P t t') (a' : String)
    (ha : ∀ dn a, P dn a → (a == a') = false) :
    (∀ dnQ, aGet2 t' dnQ a' = aGet2 t dnQ a') ∧
    (∀ dnQ k', tVals t' dnQ a' k' = tVals t dnQ a' k') := by
  induction h with
  | refl => exact ⟨fun _ => rfl, fun _ _ => rfl⟩
  | step dn a k v _ hp ih =>
    refine ⟨fun dnQ => ?_, fun dnQ k' => ?_⟩
    · rw [aGet2_treeAdd_diffAction _ _ _ _ _ _ _ (ha dn a hp), ih.1 dnQ]
    · rw [tVals_treeAdd]
      rw [if_neg (by simp [ha dn a hp])]
      exact ih.2 dnQ k'

/-- Writes whose DNs all differ from `dnQ` leave `dnQ`'s bucket untouched. -/
theorem Writes.preserve_dn {P : String → String → Prop} {t t' : DTree}
    (h : Writes P t t') (dnQ : String)
    (hdn : ∀ dn a, P dn a → keyEq dn dnQ = false) :
    tGet t' dnQ = tGet t dnQ := by
  induction h with
  | refl => rfl
  | step dn a k v _ hp ih =>
    rw [tGet_treeAdd_otherDn _ _ _ _ _ _ (hdn dn a hp), ih]

/-- Cell membership persists over any chain of writes. -/
theorem Writes.mem_tVals {P : String → String → Prop} {t t' : DTree}
    (h : Writes P t t') (dnQ a' : String) (k' : Option String) (x : PyVal)
    (hx : x ∈ tVals t dnQ a' k') : x ∈ tVals t' dnQ a' k' := by
  induction h with
  | refl => exact hx
  | step dn a k v _ hp ih => exact mem_tVals_treeAdd _ _ _ _ _ _ _ _ _ ih

/-- Unconditional add-value fold (the `addEntry` inner loop): appends the
values at the targeted cell, leaves everything else untouched. -/
theorem tVals_fold_add (vs : List String) (A dn : String) (attr : String)
    (t : DTree) (hA : (A == DELETEENTRY) = false) (dn' a' : String)
    (k' : Option String) :
    tVals (vs.foldl (fun t v => addAction t A dn (some attr) (.str v)) t)
      dn' a' k' =
      if keyEq dn dn' && (A == a') && okeyEq (some attr) k' then
        tVals t dn' a' k' ++ vs.map PyVal.str
      else tVals t dn' a' k' := by
  induction vs generalizing t with
  | nil =>
    by_cases h : (keyEq dn dn' && (A == a') && okeyEq (some attr) k') = true
    · simp [h]
    · have hf : (keyEq dn dn' && (A == a') && okeyEq (some attr) k') = false := by
        revert h
        cases keyEq dn dn' && (A == a') && okeyEq (some attr) k' <;> simp
      simp [hf]
  | cons v vs ih =>
    simp only [List.foldl_cons]
    rw [addAction_eq_treeAdd _ _ _ _ _ hA, ih, List.map_cons]
    by_cases h : (keyEq dn dn' && (A == a') && okeyEq (some attr) k') = true
    · simp [h, tVals_treeAdd, List.append_assoc]
    · have hf : (keyEq dn dn' && (A == a') && okeyEq (some attr) k') = false := by
        revert h
        cases keyEq dn dn' && (A == a') && okeyEq (some attr) k' <;> simp
      simp [hf, tVals_treeAdd]

/-- The three value-level diff actions. -/
def valueAction (a : String) : Prop :=
  a = ADDVALUE ∨ a = DELETEVALUE ∨ a = REPLACEVALUE

theorem valueAction_ne_deleteentry {a : String} (h : valueAction a) :
    (a == DELETEENTRY) = false := by
  rcases h with h | h | h <;> subst h <;> rfl

theorem valueAction_ne_addentry {a : String} (h : valueAction a) :
    (a == ADDENTRY) = false := by
  rcases h with h | h | h <;> subst h <;> rfl

theorem writes_foldl {α : Type} (l : List α) (F : DTree → α → DTree)
    (P : String → String → Prop)
    (h : ∀ t a, a ∈ l → Writes P t (F t a)) :
    ∀ t, Writes P t (l.foldl F t) := by
  induction l with
  | nil => exact fun t => Writes.refl t
  | cons x xs ih =>
    intro t
    simp only [List.foldl_cons]
    exact Writes.trans (h t x (by simp))
      (ih (fun t a ha => h t a (by simp [ha])) (F t x))

theorem writes_foldl_cond (vs : List String) (c : String → Bool) (A dn : String)
    (attr : String) (hA : (A == DELETEENTRY) = false)
    (P : String → String → Prop) (hP : P dn A) :
    ∀ t, Writes P t
      (vs.foldl
        (fun t v => if c v then t else addAction t A dn (some attr) (.str v)) t) := by
  apply writes_foldl
  intro t v _
  by_cases hc : c v = true
  · rw [if_pos hc]
    exact Writes.refl t
  · rw [if_neg hc, addAction_eq_treeAdd _ _ _ _ _ hA]
    exact Writes.step dn A (some attr) (.str v) (Writes.refl t) hP

theorem writes_foldl_add (vs : List String) (A dn : String) (attr : String)
    (hA : (A == DELETEENTRY) = false) (P : String → String → Prop)
    (hP : P dn A) :
    ∀ t, Writes P t
      (vs.foldl (fun t v => addAction t A dn (some attr) (.str v)) t) := by
  apply writes_foldl
  intro t v _
  rw [addAction_eq_treeAdd _ _ _ _ _ hA]
  exact Writes.step dn A (some attr) (.str v) (Writes.refl t) hP

/-- `diffAttr` only performs value-action writes, at the DN of one of the
two entries. -/
theorem diffAttr_writes (attr : String) (e1? e2? : Option Entry) (t : DTree) :
    Writes
      (fun dn a => valueAction a ∧
        ((∃ e, e1? = some e ∧ dn = e.dn) ∨ (∃ e, e2? = some e ∧ dn = e.dn)))
      t (diffAttr attr e1? e2? t) := by
  simp only [diffAttr]
  by_cases hg : pyEqOptLists (Entry.get_values e1? attr)
      (Entry.get_values e2? attr) = true
  · rw [if_pos hg]
    exact Writes.refl t
  · rw [if_neg hg]
    cases e1? with
    | none =>
      cases e2? with
      | none => exact Writes.refl t
      | some e2 =>
        cases ha2 : Entry.get_values (some e2) attr with
        | none =>
          simp only [Entry.get_values] at ha2
          simp only [Entry.get_values, ha2]
          rw [addAction_eq_treeAdd _ _ _ _ _ (by rfl)]
          exact Writes.step _ _ _ _ (Writes.refl t)
            ⟨Or.inr (Or.inl rfl), Or.inr ⟨e2, rfl, rfl⟩⟩
        | some vs2 =>
          simp only [Entry.get_values] at ha2
          simp only [Entry.get_values, ha2]
          rw [addAction_eq_treeAdd _ _ _ _ _ (by rfl)]
          exact Writes.step _ _ _ _ (Writes.refl t)
            ⟨Or.inr (Or.inl rfl), Or.inr ⟨e2, rfl, rfl⟩⟩
    | some e1 =>
      cases ha1 : Entry.get_values (some e1) attr with
      | none =>
        cases e2? with
        | none =>
          simp only [Entry.get_values] at ha1
          simp only [Entry.get_values, ha1]
          exact Writes.refl t
        | some e2 =>
          cases ha2 : Entry.get_values (some e2) attr with
          | none =>
            simp only [Entry.get_values] at ha1 ha2
            simp only [Entry.get_values, ha1, ha2]
            rw [addAction_eq_treeAdd _ _ _ _ _ (by rfl)]
            exact Writes.step _ _ _ _ (Writes.refl t)
              ⟨Or.inr (Or.inl rfl), Or.inr ⟨e2, rfl, rfl⟩⟩
          | some vs2 =>
            simp only [Entry.get_values] at ha1 ha2
            simp only [Entry.get_values, ha1, ha2]
            rw [addAction_eq_treeAdd _ _ _ _ _ (by rfl)]
            exact Writes.step _ _ _ _ (Writes.refl t)
              ⟨Or.inr (Or.inl rfl), Or.inr ⟨e2, rfl, rfl⟩⟩
      | some vs1 =>
        cases he2 : Entry.get_values e2? attr with
        | none =>
          cases e2? with
          | none =>
            simp only [Entry.get_values] at ha1
            simp only [Entry.get_values, ha1]
            exact writes_foldl_add vs1 ADDVALUE e1.dn attr (by rfl) _
              ⟨Or.inl rfl, Or.inl ⟨e1, rfl, rfl⟩⟩ t
          | some e2 =>
            simp only [Entry.get_values] at ha1 he2
            simp only [Entry.get_values, ha1, he2]
            exact writes_foldl_add vs1 ADDVALUE e1.dn attr (by rfl) _
              ⟨Or.inl rfl, Or.inl ⟨e1, rfl, rfl⟩⟩ t
        | some vs2 =>
          cases e2? with
          | none => simp [Entry.get_values] at he2
          | some e2 =>
            simp only [Entry.get_values] at ha1 he2
            simp only [Entry.get_values, ha1, he2]
            by_cases hlen : (vs1.length == 1 && vs2.length == 1) = true
            · rw [if_pos hlen, addAction_eq_treeAdd _ _ _ _ _ (by rfl)]
              exact Writes.step _ _ _ _ (Writes.refl t)
                ⟨Or.inr (Or.inr rfl), Or.inl ⟨e1, rfl, rfl⟩⟩
            · rw [if_neg hlen]
              refine Writes.trans
                (writes_foldl_cond vs1 (fun v => e2.hasValue attr v) ADDVALUE
                  e1.dn attr (by rfl) _
                  ⟨Or.inl rfl, Or.inl ⟨e1, rfl, rfl⟩⟩ t) ?_
              exact writes_foldl_cond vs2 (fun v => e1.hasValue attr v)
                DELETEVALUE e1.dn attr (by rfl) _
                ⟨Or.inr (Or.inl rfl), Or.inl ⟨e1, rfl, rfl⟩⟩ _

/-- `diffEntry(None, e2)` records exactly the full-removal marker. -/
theorem diffEntry_none_some (e2 : Entry) (t : DTree) :
    diffEntry none (some e2) t =
      .ok (treeAdd t e2.dn DELETEENTRY (some "fullRemoval") (.bool true)) := by
  rfl

/-- The `addEntry` double fold of `diffEntry(e1, None)`. -/
def addEntryFold (e1 : Entry) (t : DTree) : DTree :=
  e1.getAttributes.foldl
    (fun t attr =>
      ((e1.get attr).getD []).foldl
        (fun t v => addAction t ADDENTRY e1.dn (some attr) (.str v)) t)
    t

theorem diffEntry_some_none (e1 : Entry) (t : DTree) :
    diffEntry (some e1) none t = .ok (addEntryFold e1 t) := by
  rfl

theorem addEntryFold_writes (e1 : Entry) (t : DTree) :
    Writes (fun dn a => a = ADDENTRY ∧ dn = e1.dn) t (addEntryFold e1 t) := by
  apply writes_foldl
  intro t attr _
  exact writes_foldl_add _ ADDENTRY e1.dn attr (by rfl) _ ⟨rfl, rfl⟩ t

/-- Entry well-formedness: the attribute keys are pairwise distinct under
normalization (guaranteed in Python, where `op.attrs` is a dict). -/
def nodupAttrs (e : Entry) : Prop :=
  (e.attrs.map (fun q => normKey q.1)).Nodup

theorem kfind_cons {α : Type} (k0 : String) (a : α) (rest : List (String × α))
    (k : String) :
    kfind ((k0, a) :: rest) k = if keyEq k0 k then some a else kfind rest k := by
  cases h : keyEq k0 k <;> simp [kfind, List.find?, h]

theorem kfind_self_of_nodup {α : Type} (l : List (String × α))
    (hnd : (l.map (fun q => normKey q.1)).Nodup) {p : String × α} (hp : p ∈ l) :
    kfind l p.1 = some p.2 := by
  induction l with
  | nil => simp at hp
  | cons q rest ih =>
    simp only [List.map_cons, List.nodup_cons] at hnd
    rcases List.mem_cons.mp hp with hpq | hpr
    · subst hpq
      rw [kfind_cons, if_pos (keyEq_refl _)]
    · have hqp : keyEq q.1 p.1 = false := by
        by_contra hc
        have hc : keyEq q.1 p.1 = true := by
          revert hc
          cases keyEq q.1 p.1 <;> simp
        have : normKey q.1 = normKey p.1 := by
          simpa [keyEq] using hc
        exact hnd.1 (this ▸ List.mem_map.mpr ⟨p, hpr, rfl⟩)
      rw [kfind_cons, if_neg (by simp [hqp])]
      exact ih hnd.2 hpr

/-- In a well-formed entry the lookup of a stored pair's key returns that
pair's values. -/
theorem get_self_of_nodup (e : Entry) (hnd : nodupAttrs e)
    {p : String × List String} (hp : p ∈ e.attrs) : e.get p.1 = some p.2 :=
  kfind_self_of_nodup e.attrs hnd hp

theorem addEntryFold_mem_aux (e1 : Entry) (keys : List String)
    {p : String × List String} (hget : e1.get p.1 = some p.2) {v : String}
    (hv : v ∈ p.2) (hkey : p.1 ∈ keys) :
    ∀ t, PyVal.str v ∈ tVals
      (keys.foldl
        (fun t attr =>
          ((e1.get attr).getD []).foldl
            (fun t v => addAction t ADDENTRY e1.dn (some attr) (.str v)) t) t)
      e1.dn ADDENTRY (some p.1) := by
  induction keys with
  | nil => simp at hkey
  | cons a rest ih =>
    intro t
    simp only [List.foldl_cons]
    rcases List.mem_cons.mp hkey with hka | hkr
    · subst hka
      apply Writes.mem_tVals (writes_foldl _ _
        (fun dn a => a = ADDENTRY ∧ dn = e1.dn)
        (fun t attr _ => writes_foldl_add _ ADDENTRY e1.dn attr (by rfl) _
          ⟨rfl, rfl⟩ t) _)
      rw [tVals_fold_add _ _ _ _ _ (by rfl)]
      rw [if_pos (by simp [keyEq_refl, okeyEq])]
      rw [hget]
      exact List.mem_append_right _ (List.mem_map.mpr ⟨v, hv, rfl⟩)
    · exact ih hkr _

/-- Every attribute/value pair of a well-formed entry lands in the
`addEntry` bucket. -/
theorem addEntryFold_mem (e1 : Entry) (hnd : nodupAttrs e1) (t : DTree)
    {p : String × List String} (hp : p ∈ e1.attrs) {v : String} (hv : v ∈ p.2) :
    PyVal.str v ∈ tVals (addEntryFold e1 t) e1.dn ADDENTRY (some p.1) :=
  addEntryFold_mem_aux e1 e1.getAttributes (get_self_of_nodup e1 hnd hp) hv
    (List.mem_map.mpr ⟨p, hp, rfl⟩) t

/-- The some/some case of `diffEntry` performs only value-action writes at
the two entries' DNs. -/
theorem diffEntry_some_some (e1 e2 : Entry) (t : DTree) :
    ∃ T, diffEntry (some e1) (some e2) t = .ok T ∧
      Writes (fun dn a => valueAction a ∧ (dn = e1.dn ∨ dn = e2.dn)) t T := by
  refine ⟨_, rfl, ?_⟩
  refine Writes.trans (writes_foldl _ _ _ (fun t attr _ => ?_) t)
    (writes_foldl _ _ _ (fun t attr _ => ?_) _)
  · refine (diffAttr_writes attr (some e1) (some e2) t).mono_pred ?_
    rintro dn a ⟨hva, h | h⟩
    · obtain ⟨e, he, hdn⟩ := h
      cases he
      exact ⟨hva, Or.inl hdn⟩
    · obtain ⟨e, he, hdn⟩ := h
      cases he
      exact ⟨hva, Or.inr hdn⟩
  · by_cases hha : e1.hasAttr attr = true
    · rw [if_pos hha]
      exact Writes.refl t
    · rw [if_neg hha]
      refine (diffAttr_writes attr none (some e2) t).mono_pred ?_
      rintro dn a ⟨hva, h | h⟩
      · obtain ⟨e, he, hdn⟩ := h
        cases he
      · obtain ⟨e, he, hdn⟩ := h
        cases he
        exact ⟨hva, Or.inr hdn⟩

theorem keyEq_true_iff {a b : String} : keyEq a b = true ↔ normKey a = normKey b := by
  simp [keyEq]

theorem getValue_spec (d : List (String × Entry)) (dn : String) (e : Entry)
    (h : getValue d dn = some e) : ∃ κ, (κ, e) ∈ d ∧ keyEq κ dn = true := by
  induction d with
  | nil => simp [getValue, kfind] at h
  | cons p rest ih =>
    obtain ⟨κ0, e0⟩ := p
    rw [getValue, kfind_cons] at h
    by_cases hk : keyEq κ0 dn = true
    · rw [if_pos hk] at h
      cases h
      exact ⟨κ0, by simp, hk⟩
    · rw [if_neg hk] at h
      obtain ⟨κ, hmem, hkk⟩ := ih h
      exact ⟨κ, by simp [hmem], hkk⟩

theorem getValue_wf_dn {d : List (String × Entry)} {dn : String} {e : Entry}
    (hwf : wfSnap d) (h : getValue d dn = some e) : normKey e.dn = normKey dn := by
  obtain ⟨κ, hmem, hkk⟩ := getValue_spec d dn e h
  have h1 := hwf (κ, e) hmem
  have h2 := keyEq_true_iff.mp hkk
  rw [← h1]
  exact h2

theorem getValue_congr (d : List (String × Entry)) {dn dn' : String}
    (h : keyEq dn dn' = true) : getValue d dn = getValue d dn' :=
  kfind_congr d h

theorem aGet2_of_tGet_none {t : DTree} {dn : String} (h : tGet t dn = none)
    (a : String) : aGet2 t dn a = none := by
  simp [aGet2, h]

theorem aGet2_eq_of_tGet_eq {t1 t2 : DTree} {dn : String}
    (h : tGet t1 dn = tGet t2 dn) (a : String) : aGet2 t1 dn a = aGet2 t2 dn a := by
  simp [aGet2, h]

theorem tVals_eq_of_tGet_eq {t1 t2 : DTree} {dn : String}
    (h : tGet t1 dn = tGet t2 dn) (a : String) (k : Option String) :
    tVals t1 dn a k = tVals t2 dn a k := by
  simp [tVals, h]

/-- Post-condition of a finished diff tree, relative to the first snapshot:
delete-entry actions exclude all other action kinds on their DN, and
add-entry buckets cover the full attribute set of the added entry. -/
def goodT (d1 : List (String × Entry)) (t : DTree) : Prop :=
  ∀ dn : String,
    ((aGet2 t dn DELETEENTRY).isSome →
      aGet2 t dn ADDENTRY = none ∧ aGet2 t dn ADDVALUE = none ∧
      aGet2 t dn DELETEVALUE = none ∧ aGet2 t dn REPLACEVALUE = none) ∧
    ((aGet2 t dn ADDENTRY).isSome →
      ∃ e, getValue d1 dn = some e ∧
        ∀ p ∈ e.attrs, ∀ v ∈ p.2, PyVal.str v ∈ tVals t dn ADDENTRY (some p.1))

/-- No bucket yet exists for any DN whose normalization matches a pending
diff DN. -/
def freshT (t : DTree) (pending : List String) : Prop :=
  ∀ dn : String, (∃ q ∈ pending, normKey q = normKey dn) → tGet t dn = none

theorem writes_class_preserve {P : String → String → Prop} {t t1 : DTree}
    (hw : Writes P t t1) (C : String)
    (hP : ∀ dn a, P dn a → normKey dn = normKey C) {dnQ : String}
    (hQ : ¬normKey dnQ = normKey C) : tGet t1 dnQ = tGet t dnQ := by
  apply hw.preserve_dn
  intro dn a hp
  by_contra hc
  have hc : keyEq dn dnQ = true := by revert hc; cases keyEq dn dnQ <;> simp
  have := keyEq_true_iff.mp hc
  exact hQ (by rw [← this, hP dn a hp])

theorem freshT_step {P : String → String → Prop} {t t1 : DTree}
    (hw : Writes P t t1) (dn0 : String) (rest : List String)
    (hP : ∀ dn a, P dn a → normKey dn = normKey dn0)
    (hfresh : freshT t (dn0 :: rest))
    (hnd : normKey dn0 ∉ rest.map normKey) : freshT t1 rest := by
  rintro dnQ ⟨q, hq, hqe⟩
  have hQC : ¬normKey dnQ = normKey dn0 := by
    intro hc
    exact hnd (by
      have : normKey q = normKey dn0 := by rw [hqe, hc]
      exact this ▸ List.mem_map.mpr ⟨q, hq, rfl⟩)
  rw [writes_class_preserve hw dn0 hP hQC]
  exact hfresh dnQ ⟨q, by simp [hq], hqe⟩

/-- Value-action writes at one fresh DN class preserve `goodT`. -/
theorem goodT_step_values {d1 : List (String × Entry)} {t t1 : DTree}
    (hg : goodT d1 t) (C : String)
    (hfreshC : ∀ dnQ, normKey dnQ = normKey C → tGet t dnQ = none)
    {P : String → String → Prop} (hw : Writes P t t1)
    (hPv : ∀ dn a, P dn a → valueAction a ∧ normKey dn = normKey C) :
    goodT d1 t1 := by
  intro dnQ
  by_cases hc : normKey dnQ = normKey C
  · have hDel : aGet2 t1 dnQ DELETEENTRY = none := by
      rw [(hw.preserve_action DELETEENTRY
        (fun dn a hp => valueAction_ne_deleteentry (hPv dn a hp).1)).1 dnQ]
      exact aGet2_of_tGet_none (hfreshC dnQ hc) _
    have hAdd : aGet2 t1 dnQ ADDENTRY = none := by
      rw [(hw.preserve_action ADDENTRY
        (fun dn a hp => valueAction_ne_addentry (hPv dn a hp).1)).1 dnQ]
      exact aGet2_of_tGet_none (hfreshC dnQ hc) _
    constructor
    · intro hds
      rw [hDel] at hds
      simp at hds
    · intro has
      rw [hAdd] at has
      simp at has
  · have hEq : tGet t1 dnQ = tGet t dnQ :=
      writes_class_preserve hw C (fun dn a hp => (hPv dn a hp).2) hc
    constructor
    · intro hds
      rw [aGet2_eq_of_tGet_eq hEq] at hds
      obtain ⟨h1, h2, h3, h4⟩ := (hg dnQ).1 hds
      exact ⟨by rw [aGet2_eq_of_tGet_eq hEq, h1],
        by rw [aGet2_eq_of_tGet_eq hEq, h2],
        by rw [aGet2_eq_of_tGet_eq hEq, h3],
        by rw [aGet2_eq_of_tGet_eq hEq, h4]⟩
    · intro has
      rw [aGet2_eq_of_tGet_eq hEq] at has
      obtain ⟨e, hgv, hpairs⟩ := (hg dnQ).2 has
      refine ⟨e, hgv, fun p hp v hv => ?_⟩
      rw [tVals_eq_of_tGet_eq hEq]
      exact hpairs p hp v hv

/-- The single delete-entry write at a fresh DN preserves `goodT`. -/
theorem goodT_step_delete {d1 : List (String × Entry)} {t : DTree}
    (hg : goodT d1 t) (C e2dn : String) (hC : normKey e2dn = normKey C)
    (hfreshC : ∀ dnQ, normKey dnQ = normKey C → tGet t dnQ = none) :
    goodT d1 (treeAdd t e2dn DELETEENTRY (some "fullRemoval") (.bool true)) := by
  intro dnQ
  by_cases hc : normKey dnQ = normKey C
  · have hnone : ∀ a', (DELETEENTRY == a') = false →
        aGet2 (treeAdd t e2dn DELETEENTRY (some "fullRemoval") (.bool true))
          dnQ a' = none := by
      intro a' ha'
      rw [aGet2_treeAdd_diffAction _ _ _ _ _ _ _ ha']
      exact aGet2_of_tGet_none (hfreshC dnQ hc) _
    constructor
    · intro _
      exact ⟨hnone ADDENTRY (by rfl), hnone ADDVALUE (by rfl),
        hnone DELETEVALUE (by rfl), hnone REPLACEVALUE (by rfl)⟩
    · intro has
      rw [hnone ADDENTRY (by rfl)] at has
      simp at has
  · have hk : keyEq e2dn dnQ = false := by
      by_contra hk
      have hk : keyEq e2dn dnQ = true := by revert hk; cases keyEq e2dn dnQ <;> simp
      exact hc (by rw [← keyEq_true_iff.mp hk, hC])
    have hEq : tGet (treeAdd t e2dn DELETEENTRY (some "fullRemoval")
        (.bool true)) dnQ = tGet t dnQ := tGet_treeAdd_otherDn _ _ _ _ _ _ hk
    constructor
    · intro hds
      rw [aGet2_eq_of_tGet_eq hEq] at hds
      obtain ⟨h1, h2, h3, h4⟩ := (hg dnQ).1 hds
      exact ⟨by rw [aGet2_eq_of_tGet_eq hEq, h1],
        by rw [aGet2_eq_of_tGet_eq hEq, h2],
        by rw [aGet2_eq_of_tGet_eq hEq, h3],
        by rw [aGet2_eq_of_tGet_eq hEq, h4]⟩
    · intro has
      rw [aGet2_eq_of_tGet_eq hEq] at has
      obtain ⟨e, hgv, hpairs⟩ := (hg dnQ).2 has
      refine ⟨e, hgv, fun p hp v hv => ?_⟩
      rw [tVals_eq_of_tGet_eq hEq]
      exact hpairs p hp v hv

/-- The add-entry fold at a fresh DN preserves `goodT` and establishes the
full-attribute property for the new bucket. -/
theorem goodT_step_addentry {d1 : List (String × Entry)} {t : DTree}
    {dn0 : String} (hg : goodT d1 t) (hwf1 : wfSnap d1) (e1 : Entry)
    (hgv : getValue d1 dn0 = some e1) (hnd : nodupAttrs e1)
    (hfreshC : ∀ dnQ, normKey dnQ = normKey dn0 → tGet t dnQ = none) :
    goodT d1 (addEntryFold e1 t) := by
  have hC : normKey e1.dn = normKey dn0 := getValue_wf_dn hwf1 hgv
  have hw := addEntryFold_writes e1 t
  intro dnQ
  by_cases hc : normKey dnQ = normKey dn0
  · have hDel : aGet2 (addEntryFold e1 t) dnQ DELETEENTRY = none := by
      rw [(hw.preserve_action DELETEENTRY (fun dn a hp => by
        rw [hp.1]; rfl)).1 dnQ]
      exact aGet2_of_tGet_none (hfreshC dnQ hc) _
    refine ⟨fun hds => ?_, fun _ => ?_⟩
    · rw [hDel] at hds
      simp at hds
    · refine ⟨e1, ?_, fun p hp v hv => ?_⟩
      · rw [getValue_congr d1 (keyEq_true_iff.mpr hc), hgv]
      · rw [tVals_congr (addEntryFold e1 t) ADDENTRY (some p.1)
          (keyEq_true_iff.mpr (hc.trans hC.symm))]
        exact addEntryFold_mem e1 hnd t hp hv
  · have hEq : tGet (addEntryFold e1 t) dnQ = tGet t dnQ :=
      writes_class_preserve hw dn0 (fun dn a hp => by rw [hp.2]; exact hC) hc
    constructor
    · intro hds
      rw [aGet2_eq_of_tGet_eq hEq] at hds
      obtain ⟨h1, h2, h3, h4⟩ := (hg dnQ).1 hds
      exact ⟨by rw [aGet2_eq_of_tGet_eq hEq, h1],
        by rw [aGet2_eq_of_tGet_eq hEq, h2],
        by rw [aGet2_eq_of_tGet_eq hEq, h3],
        by rw [aGet2_eq_of_tGet_eq hEq, h4]⟩
    · intro has
      rw [aGet2_eq_of_tGet_eq hEq] at has
      obtain ⟨e, hgv2, hpairs⟩ := (hg dnQ).2 has
      refine ⟨e, hgv2, fun p hp v hv => ?_⟩
      rw [tVals_eq_of_tGet_eq hEq]
      exact hpairs p hp v hv

theorem diff_fold_inv (d1 d2 : List (String × Entry)) (hwf1 : wfSnap d1)
    (hwf2 : wfSnap d2) (hent1 : ∀ p ∈ d1, nodupAttrs p.2) :
    ∀ (dns : List String) (t T : DTree),
      (dns.map normKey).Nodup → goodT d1 t → freshT t dns →
      dns.foldlM (fun t dn => diffEntry (getValue d1 dn) (getValue d2 dn) t) t
        = .ok T →
      goodT d1 T := by
  intro dns
  induction dns with
  | nil =>
    intro t T _ hg _ h
    simp only [List.foldlM_nil] at h
    cases h
    exact hg
  | cons dn0 rest ih =>
    intro t T hnd hg hfresh h
    simp only [List.foldlM_cons] at h
    have hndr : (rest.map normKey).Nodup := (List.nodup_cons.mp (by simpa using hnd)).2
    have hCnot : normKey dn0 ∉ rest.map normKey :=
      (List.nodup_cons.mp (by simpa using hnd)).1
    have hfreshC : ∀ dnQ, normKey dnQ = normKey dn0 → tGet t dnQ = none :=
      fun dnQ hq => hfresh dnQ ⟨dn0, by simp, hq.symm⟩
    cases hstep : diffEntry (getValue d1 dn0) (getValue d2 dn0) t with
    | error e =>
      rw [hstep] at h
      simp [Bind.bind, Except.bind] at h
    | ok t1 =>
      rw [hstep] at h
      have h2 : rest.foldlM
          (fun t dn => diffEntry (getValue d1 dn) (getValue d2 dn) t) t1
          = .ok T := by
        simpa [Bind.bind, Except.bind] using h
      cases hv1 : getValue d1 dn0 with
      | none =>
        cases hv2 : getValue d2 dn0 with
        | none =>
          rw [hv1, hv2] at hstep
          simp [diffEntry] at hstep
        | some e2 =>
          rw [hv1, hv2, diffEntry_none_some] at hstep
          cases hstep
          have hC2 : normKey e2.dn = normKey dn0 := getValue_wf_dn hwf2 hv2
          have hwD : Writes (fun dn _ => dn = e2.dn) t
              (treeAdd t e2.dn DELETEENTRY (some "fullRemoval") (.bool true)) :=
            Writes.step _ _ _ _ (Writes.refl t) rfl
          exact ih _ T hndr
            (goodT_step_delete hg dn0 e2.dn hC2 hfreshC)
            (freshT_step hwD dn0 rest (fun dn a hp => hp ▸ hC2) hfresh hCnot) h2
      | some e1 =>
        have hC1 : normKey e1.dn = normKey dn0 := getValue_wf_dn hwf1 hv1
        have hnde1 : nodupAttrs e1 := by
          obtain ⟨κ, hmem, _⟩ := getValue_spec d1 dn0 e1 hv1
          exact hent1 (κ, e1) hmem
        cases hv2 : getValue d2 dn0 with
        | none =>
          rw [hv1, hv2, diffEntry_some_none] at hstep
          cases hstep
          exact ih _ T hndr
            (goodT_step_addentry hg hwf1 e1 hv1 hnde1 hfreshC)
            (freshT_step (addEntryFold_writes e1 t) dn0 rest
              (fun dn a hp => hp.2 ▸ hC1) hfresh hCnot) h2
        | some e2 =>
          rw [hv1, hv2] at hstep
          have hC2 : normKey e2.dn = normKey dn0 := getValue_wf_dn hwf2 hv2
          obtain ⟨T0, hT0, hwv⟩ := diffEntry_some_some e1 e2 t
          rw [hT0] at hstep
          cases hstep
          have hclass : ∀ dn a, (valueAction a ∧ (dn = e1.dn ∨ dn = e2.dn)) →
              normKey dn = normKey dn0 := by
            rintro dn a ⟨_, hdn | hdn⟩ <;> subst hdn
            · exact hC1
            · exact hC2
          exact ih _ T hndr
            (goodT_step_values hg dn0 hfreshC hwv
              (fun dn a hp => ⟨hp.1, hclass dn a hp⟩))
            (freshT_step hwv dn0 rest hclass hfresh hCnot) h2

/-- C6 — Invariant of every `DiffResult` produced by `diff` on well-formed
snapshots: for any DN, if a delete-entry action is present then no other
action kind is present for that DN, and an add-entry bucket carries every
attribute/value pair of the added entry (the first snapshot's entry at
that DN). -/
theorem c6_diff_invariant (d1 d2 : List (String × Entry)) (T : DTree)
    (hwf1 : wfSnap d1) (hwf2 : wfSnap d2)
    (hk1 : (d1.map (fun p => normKey p.1)).Nodup)
    (hk2 : (d2.map (fun p => normKey p.1)).Nodup)
    (hent1 : ∀ p ∈ d1, nodupAttrs p.2)
    (h : diff d1 d2 [] = .ok T) :
    ∀ dn : String,
      ((aGet2 T dn DELETEENTRY).isSome →
        aGet2 T dn ADDENTRY = none ∧ aGet2 T dn ADDVALUE = none ∧
        aGet2 T dn DELETEVALUE = none ∧ aGet2 T dn REPLACEVALUE = none) ∧
      ((aGet2 T dn ADDENTRY).isSome →
        ∃ e, getValue d1 dn = some e ∧
          ∀ p ∈ e.attrs, ∀ v ∈ p.2,
            PyVal.str v ∈ tVals T dn ADDENTRY (some p.1)) := by
  simp only [diff] at h
  have hmap1 : (d1.map (fun p => p.2.dn)).map normKey
      = d1.map (fun p => normKey p.1) := by
    rw [List.map_map]
    exact List.map_congr_left (fun p hp => (hwf1 p hp).symm)
  have hmap2 : (d2.map (fun p => p.2.dn)).map normKey
      = d2.map (fun p => normKey p.1) := by
    rw [List.map_map]
    exact List.map_congr_left (fun p hp => (hwf2 p hp).symm)
  have hn1 : ((d1.map (fun p => p.2.dn)).map normKey).Nodup := hmap1 ▸ hk1
  have hn2 : (((d2.map (fun p => p.2.dn)).filter
      (fun dn => !((d1.map (fun p => p.2.dn)).any
        (fun d => keyEq d dn)))).map normKey).Nodup :=
    List.Nodup.sublist (List.Sublist.map normKey (List.filter_sublist _))
      (hmap2 ▸ hk2)
  have hdisj : ∀ x ∈ (d1.map (fun p => p.2.dn)).map normKey,
      x ∉ ((d2.map (fun p => p.2.dn)).filter
        (fun dn => !((d1.map (fun p => p.2.dn)).any
          (fun d => keyEq d dn)))).map normKey := by
    intro x hx1 hx2
    obtain ⟨q, hq, hqx⟩ := List.mem_map.mp hx1
    obtain ⟨r, hr, hrx⟩ := List.mem_map.mp hx2
    have hrf := List.of_mem_filter hr
    have hkeq : keyEq q r = true := keyEq_true_iff.mpr (by rw [hqx, hrx])
    have : (d1.map (fun p => p.2.dn)).any (fun d => keyEq d r) = true :=
      List.any_eq_true.mpr ⟨q, hq, hkeq⟩
    rw [this] at hrf
    simp at hrf
  have hnodup : (((d1.map (fun p => p.2.dn)) ++
      ((d2.map (fun p => p.2.dn)).filter
        (fun dn => !((d1.map (fun p => p.2.dn)).any
          (fun d => keyEq d dn))))).map normKey).Nodup := by
    rw [List.map_append]
    exact List.Nodup.append hn1 hn2 (fun x hx1 hx2 => hdisj x hx1 hx2)
  have hgood0 : goodT d1 [] := by
    intro dn
    constructor
    · intro hds
      simp [aGet2, tGet, dget] at hds
    · intro has
      simp [aGet2, tGet, dget] at has
  exact diff_fold_inv d1 d2 hwf1 hwf2 hent1 _ [] T hnodup hgood0
    (fun dn _ => rfl) h

/-- Witness for C6 at a concrete pair of snapshots (one deleted DN, one
added DN, one common DN with attribute changes): the `cn=b` bucket holds a
delete-entry action and is shown free of every other action kind. -/
theorem c6_diff_invariant_witness :
    aGet2 [("cn=a", [(ADDENTRY, [(some "cn", [PyVal.str "a"]),
              (some "sn", [PyVal.str "x"])])]),
           ("cn=c", [(REPLACEVALUE, [(some "cn", [PyVal.list ["c"]])])]),
           ("cn=b", [(DELETEENTRY, [(some "fullRemoval", [PyVal.bool true])])])]
        "cn=b" ADDENTRY = none ∧
    aGet2 [("cn=a", [(ADDENTRY, [(some "cn", [PyVal.str "a"]),
              (some "sn", [PyVal.str "x"])])]),
           ("cn=c", [(REPLACEVALUE, [(some "cn", [PyVal.list ["c"]])])]),
           ("cn=b", [(DELETEENTRY, [(some "fullRemoval", [PyVal.bool true])])])]
        "cn=b" ADDVALUE = none := by
  have h := (c6_diff_invariant
    [("cn=a", ⟨"cn=a", [("cn", ["a"]), ("sn", ["x"])]⟩),
     ("cn=c", ⟨"cn=c", [("cn", ["c"])]⟩)]
    [("cn=b", ⟨"cn=b", [("cn", ["b"])]⟩),
     ("cn=c", ⟨"cn=c", [("cn", ["d"])]⟩)]
    [("cn=a", [(ADDENTRY, [(some "cn", [PyVal.str "a"]),
        (some "sn", [PyVal.str "x"])])]),
     ("cn=c", [(REPLACEVALUE, [(some "cn", [PyVal.list ["c"]])])]),
     ("cn=b", [(DELETEENTRY, [(some "fullRemoval", [PyVal.bool true])])])]
    (by intro p hp; fin_cases hp <;> rfl)
    (by intro p hp; fin_cases hp <;> rfl)
    (by decide) (by decide)
    (by intro p hp; fin_cases hp <;> (unfold nodupAttrs; decide))
    (by rfl) "cn=b").1 (by decide)
  exact ⟨h.1, h.2.1⟩

/-! ## C7: normalization invariance

A DN "differing only in incidental whitespace" is formalized as a rendering
of the same `attr=value` component list with arbitrary runs of spaces
around the attribute and the value of each component; "differing only in
case" as equality after lowercasing. -/

/-- Space runs around an RDN's attribute and value:
`(before attr, after attr, after =, after value)`. -/
def Spacing : Type := Nat × Nat × Nat × Nat

/-- Render a single `attr=value` component with the given space runs. -/
def renderComp (a v : List Char) (sp : Spacing) : List Char :=
  (pad sp.1 ++ a ++ pad sp.2.1) ++ '=' :: (pad sp.2.2.1 ++ v ++ pad sp.2.2.2)

/-- Render a whole DN, components joined by commas. -/
def renderDN : List ((List Char × List Char) × Spacing) → List Char
  | [] => []
  | [c] => renderComp c.1.1 c.1.2 c.2
  | c :: rest => renderComp c.1.1 c.1.2 c.2 ++ ',' :: renderDN rest

/-- A well-formed RDN part: nonempty, no surrounding spaces, free of the
DN separators, and lowercase. -/
def wfPart (p : List Char) : Prop :=
  p ≠ [] ∧ p.head? ≠ some ' ' ∧ p.getLast? ≠ some ' ' ∧
    ',' ∉ p ∧ '=' ∉ p ∧ ∀ c ∈ p, c.toLower = c

theorem dropWhile_pad (m : Nat) (l : List Char) :
    (pad m ++ l).dropWhile (fun c => c = ' ') = l.dropWhile (fun c => c = ' ') := by
  induction m with
  | zero => rfl
  | succ n ih => simpa [pad, List.replicate_succ] using ih

theorem dropWhile_of_head_ne (l : List Char) (h : l.head? ≠ some ' ') :
    l.dropWhile (fun c => c = ' ') = l := by
  cases l with
  | nil => rfl
  | cons c cs =>
    have : ¬(c = ' ') := fun hc => h (by simp [hc])
    simp [List.dropWhile_cons, this]

theorem reverse_pad (n : Nat) : (pad n).reverse = pad n :=
  List.reverse_replicate n ' '

theorem head?_append_left {α : Type} (a b : List α) (h : a ≠ []) :
    (a ++ b).head? = a.head? := by
  cases a with
  | nil => exact absurd rfl h
  | cons x xs => rfl

theorem trim_pad_wrap (a : List Char) (m n : Nat) (h1 : a ≠ [])
    (hh : a.head? ≠ some ' ') (hl : a.getLast? ≠ some ' ') :
    trimSpaces (pad m ++ a ++ pad n) = a := by
  unfold trimSpaces
  rw [List.append_assoc, dropWhile_pad,
    dropWhile_of_head_ne (a ++ pad n) (by rw [head?_append_left a (pad n) h1]; exact hh),
    List.reverse_append, reverse_pad, dropWhile_pad,
    dropWhile_of_head_ne a.reverse (by rw [List.head?_reverse]; exact hl),
    List.reverse_reverse]

theorem splitEq_no_eq (xs ys : List Char) (h : '=' ∉ xs) :
    splitEq (xs ++ '=' :: ys) = some (xs, ys) := by
  induction xs with
  | nil => simp [splitEq]
  | cons c cs ih =>
    have hc : ¬(c = '=') := fun hc => h (by simp [hc])
    have hcs : '=' ∉ cs := fun hm => h (by simp [hm])
    simp [splitEq, hc, ih hcs]

theorem splitComma_ne_nil (l : List Char) : splitComma l ≠ [] := by
  cases l with
  | nil => simp [splitComma]
  | cons c cs =>
    simp only [splitComma]
    cases hs : splitComma cs with
    | nil => simp
    | cons p ps =>
      by_cases hc : c = ','
      · simp [hc]
      · simp [hc]

theorem splitComma_no_comma (xs : List Char) (h : ',' ∉ xs) :
    splitComma xs = [xs] := by
  induction xs with
  | nil => rfl
  | cons c cs ih =>
    have hc : ¬(c = ',') := fun hc => h (by simp [hc])
    have hcs : ',' ∉ cs := fun hm => h (by simp [hm])
    simp [splitComma, ih hcs, hc]

theorem splitComma_append (xs ys : List Char) (h : ',' ∉ xs) :
    splitComma (xs ++ ',' :: ys) = xs :: splitComma ys := by
  induction xs with
  | nil =>
    simp only [List.nil_append, splitComma]
    cases hs : splitComma ys with
    | nil => exact absurd hs (splitComma_ne_nil ys)
    | cons p ps => simp
  | cons c cs ih =>
    have hc : ¬(c = ',') := fun hc => h (by simp [hc])
    have hcs : ',' ∉ cs := fun hm => h (by simp [hm])
    simp only [List.cons_append, splitComma]
    rw [show cs.append (',' :: ys) = cs ++ ',' :: ys from rfl, ih hcs]
    simp [hc]

theorem mem_pad {c : Char} {n : Nat} (h : c ∈ pad n) : c = ' ' :=
  (List.eq_of_mem_replicate h)

theorem eqchar_not_mem_renderComp_left {a : List Char} (sp1 sp2 : Nat)
    (h : '=' ∉ a) : '=' ∉ pad sp1 ++ a ++ pad sp2 := by
  intro hm
  rcases List.mem_append.mp hm with hm | hm
  · rcases List.mem_append.mp hm with hm | hm
    · exact absurd (mem_pad hm) (by decide)
    · exact h hm
  · exact absurd (mem_pad hm) (by decide)

theorem comma_not_mem_renderComp {a v : List Char} {sp : Spacing}
    (ha : ',' ∉ a) (hv : ',' ∉ v) : ',' ∉ renderComp a v sp := by
  intro hm
  unfold renderComp at hm
  rcases List.mem_append.mp hm with hm | hm
  · rcases List.mem_append.mp hm with hm | hm
    · rcases List.mem_append.mp hm with hm | hm
      · exact absurd (mem_pad hm) (by decide)
      · exact ha hm
    · exact absurd (mem_pad hm) (by decide)
  · rcases List.mem_cons.mp hm with hm | hm
    · exact absurd hm (by decide)
    · rcases List.mem_append.mp hm with hm | hm
      · rcases List.mem_append.mp hm with hm | hm
        · exact absurd (mem_pad hm) (by decide)
        · exact hv hm
      · exact absurd (mem_pad hm) (by decide)

theorem parseComp_renderComp (a v : List Char) (sp : Spacing)
    (ha : wfPart a) (hv : wfPart v) :
    parseComp (renderComp a v sp) = some (a, v) := by
  obtain ⟨ha1, ha2, ha3, _, ha5, _⟩ := ha
  obtain ⟨hv1, hv2, hv3, _, _, _⟩ := hv
  unfold renderComp parseComp
  rw [splitEq_no_eq _ _ (eqchar_not_mem_renderComp_left _ _ ha5)]
  show some (trimSpaces (pad sp.1 ++ a ++ pad sp.2.1),
      trimSpaces (pad sp.2.2.1 ++ v ++ pad sp.2.2.2)) = some (a, v)
  rw [trim_pad_wrap a _ _ ha1 ha2 ha3, trim_pad_wrap v _ _ hv1 hv2 hv3]

theorem renderComp_ne_nil (a v : List Char) (sp : Spacing) :
    renderComp a v sp ≠ [] := by
  unfold renderComp
  simp

theorem renderDN_ne_nil {l : List ((List Char × List Char) × Spacing)}
    (h : l ≠ []) : renderDN l ≠ [] := by
  cases l with
  | nil => exact absurd rfl h
  | cons c rest =>
    cases rest with
    | nil => exact renderComp_ne_nil _ _ _
    | cons d rest2 => simp [renderDN, renderComp]

theorem splitComma_renderDN (l : List ((List Char × List Char) × Spacing))
    (hwf : ∀ c ∈ l, wfPart c.1.1 ∧ wfPart c.1.2) (hne : l ≠ []) :
    splitComma (renderDN l) = l.map (fun c => renderComp c.1.1 c.1.2 c.2) := by
  induction l with
  | nil => exact absurd rfl hne
  | cons c rest ih =>
    have hc := hwf c (by simp)
    have hnc : ',' ∉ renderComp c.1.1 c.1.2 c.2 :=
      comma_not_mem_renderComp hc.1.2.2.2.1 hc.2.2.2.2.1
    cases rest with
    | nil =>
      simp only [renderDN, List.map_cons, List.map_nil]
      rw [splitComma_no_comma _ hnc]
    | cons d rest2 =>
      simp only [renderDN, List.map_cons]
      rw [splitComma_append _ _ hnc]
      have := ih (fun q hq => hwf q (by simp [hq])) (by simp)
      simp only [renderDN, List.map_cons] at this
      rw [this]

theorem mapM_parseComp_renderComps (l : List ((List Char × List Char) × Spacing))
    (hwf : ∀ c ∈ l, wfPart c.1.1 ∧ wfPart c.1.2) :
    (l.map (fun c => renderComp c.1.1 c.1.2 c.2)).mapM parseComp
      = some (l.map (fun c => c.1)) := by
  induction l with
  | nil => rfl
  | cons c rest ih =>
    have hc := hwf c (by simp)
    have hr := ih (fun q hq => hwf q (by simp [hq]))
    rw [List.map_cons, List.mapM_cons, parseComp_renderComp _ _ _ hc.1 hc.2]
    rw [hr]
    rfl

theorem str2dn_renderDN (l : List ((List Char × List Char) × Spacing))
    (hwf : ∀ c ∈ l, wfPart c.1.1 ∧ wfPart c.1.2) (hne : l ≠ []) :
    str2dn (renderDN l) = some (l.map (fun c => c.1)) := by
  unfold str2dn
  rw [if_neg (renderDN_ne_nil hne), splitComma_renderDN l hwf hne]
  exact mapM_parseComp_renderComps l hwf

/-- The rendering of lowercase well-formed components is fixed by
lowercasing. -/
theorem lower_fixed_renderDN (l : List ((List Char × List Char) × Spacing))
    (hwf : ∀ c ∈ l, wfPart c.1.1 ∧ wfPart c.1.2) :
    (renderDN l).map Char.toLower = renderDN l := by
  have hsp : Char.toLower ' ' = ' ' := by decide
  have heq : Char.toLower '=' = '=' := by decide
  have hco : Char.toLower ',' = ',' := by decide
  have hpad : ∀ n, (pad n).map Char.toLower = pad n := by
    intro n
    simp only [pad, List.map_replicate, hsp]
  have hfix : ∀ p : List Char, (∀ c ∈ p, c.toLower = c) →
      p.map Char.toLower = p := by
    intro p hp
    have h1 : p.map Char.toLower = p.map id :=
      List.map_congr_left (fun x hx => hp x hx)
    rw [h1, List.map_id]
  have hcomp : ∀ c, c ∈ l → (renderComp c.1.1 c.1.2 c.2).map Char.toLower
      = renderComp c.1.1 c.1.2 c.2 := by
    intro c hc
    obtain ⟨ha, hv⟩ := hwf c hc
    unfold renderComp
    simp only [List.map_append, List.map_cons, hpad, heq,
      hfix c.1.1 ha.2.2.2.2.2, hfix c.1.2 hv.2.2.2.2.2]
  induction l with
  | nil => rfl
  | cons c rest ih =>
    cases rest with
    | nil => exact hcomp c (by simp)
    | cons d rest2 =>
      simp only [renderDN, List.map_append, List.map_cons, hco]
      rw [hcomp c (by simp)]
      have := ih (fun q hq => hwf q (by simp [hq])) (fun q hq => hcomp q (by simp [hq]))
      simp only [renderDN] at this
      rw [this]

theorem normKey_renderDN (l : List ((List Char × List Char) × Spacing))
    (hwf : ∀ c ∈ l, wfPart c.1.1 ∧ wfPart c.1.2) :
    normKey ⟨renderDN l⟩ = ⟨dn2str (l.map (fun c => c.1))⟩ := by
  cases hl : l with
  | nil => rfl
  | cons c rest =>
    rw [← hl]
    have hne : l ≠ [] := by rw [hl]; simp
    simp only [normKey, normChars]
    rw [lower_fixed_renderDN l hwf, str2dn_renderDN l hwf hne]

theorem normKey_lower_eq {s1 s2 : String}
    (h : s1.data.map Char.toLower = s2.data.map Char.toLower) :
    normKey s1 = normKey s2 := by
  simp only [normKey, normChars, h]

/-- C7 — Normalization invariance: two DNs differing only in letter case
compare equal as `Key`s (same normalization, hash and equality); two DNs
rendering the same `attr=value` components with arbitrary incidental
whitespace compare equal as `Key`s; and attribute values differing only in
case are interchangeable for `Entry.hasValue`. -/
theorem c7_normalization_invariance :
    (∀ s1 s2 : String, s1.data.map Char.toLower = s2.data.map Char.toLower →
      normKey s1 = normKey s2 ∧ keyHash s1 = keyHash s2 ∧ keyEq s1 s2 = true) ∧
    (∀ l1 l2 : List ((List Char × List Char) × Spacing),
      l1.map Prod.fst = l2.map Prod.fst →
      (∀ c ∈ l1, wfPart c.1.1 ∧ wfPart c.1.2) →
      normKey ⟨renderDN l1⟩ = normKey ⟨renderDN l2⟩ ∧
      keyHash ⟨renderDN l1⟩ = keyHash ⟨renderDN l2⟩ ∧
      keyEq ⟨renderDN l1⟩ ⟨renderDN l2⟩ = true) ∧
    (∀ (e : Entry) (attr v1 v2 : String),
      v1.data.map Char.toLower = v2.data.map Char.toLower →
      e.hasValue attr v1 = e.hasValue attr v2) := by
  refine ⟨?_, ?_, ?_⟩
  · intro s1 s2 h
    have hn := normKey_lower_eq h
    exact ⟨hn, by simp [keyHash, hn], by simp [keyEq, hn]⟩
  · intro l1 l2 hmap hwf1
    have hwf2 : ∀ c ∈ l2, wfPart c.1.1 ∧ wfPart c.1.2 := by
      intro c hc
      have : c.1 ∈ l2.map Prod.fst := List.mem_map.mpr ⟨c, hc, rfl⟩
      rw [← hmap] at this
      obtain ⟨c1, hc1, hc1e⟩ := List.mem_map.mp this
      have := hwf1 c1 hc1
      rw [hc1e] at this
      exact this
    have h1 := normKey_renderDN l1 hwf1
    have h2 := normKey_renderDN l2 hwf2
    have hn : normKey ⟨renderDN l1⟩ = normKey ⟨renderDN l2⟩ := by
      rw [h1, h2]
      have : l1.map (fun c => c.1) = l2.map (fun c => c.1) := hmap
      rw [this]
    exact ⟨hn, by simp [keyHash, hn], by simp [keyEq, hn]⟩
  · intro e attr v1 v2 h
    have hn := normKey_lower_eq h
    simp only [Entry.hasValue]
    cases kfind e.attrs attr with
    | none => rfl
    | some vs =>
      simp only []
      congr 1
      funext w
      simp [keyEq, hn]

/-- Witness for C7: `CN=Example Config, dc=COM` matches
`cn=example config,dc=com` in all three senses. -/
theorem c7_normalization_invariance_witness :
    keyEq "CN=Example" "cn=example" = true ∧
    normKey ⟨renderDN [(("cn".data, "ab cd".data), ((0, 2, 3, 1) : Spacing))]⟩ =
      normKey ⟨renderDN [(("cn".data, "ab cd".data), ((0, 0, 0, 0) : Spacing))]⟩ ∧
    Entry.hasValue ⟨"cn=x", [("oc", ["TOP"])]⟩ "oc" "top" =
      Entry.hasValue ⟨"cn=x", [("oc", ["TOP"])]⟩ "oc" "Top" := by
  refine ⟨?_, ?_, ?_⟩
  · exact ((c7_normalization_invariance.1 "CN=Example" "cn=example")
      (by decide)).2.2
  · exact ((c7_normalization_invariance.2.1 _ _ rfl
      (by intro c hc; fin_cases hc; constructor <;> (refine ⟨?_, ?_, ?_, ?_, ?_, ?_⟩ <;> decide))).1)
  · exact c7_normalization_invariance.2.2 _ "oc" "top" "Top" (by decide)

/-! ## C10: the `hasSameAttributes` / `isAttrUpToDate` comparison -/

/-- C10 — `Entry.hasSameAttributes(other, attrlist)` with an attribute list
returns `True` for every pair of entries and every attribute list, because
it compares the `None` results of Python's in-place `list.sort()`;
consequently `ConfigInstance.isAttrUpToDate` returns `True` for every
existing entry, so `_filter_ops_replace_value_cb` never stages a
replace-value write against an existing entry. -/
theorem c10_hasSameAttributes_always_true :
    (∀ (e other : Entry) (attrlist : List String),
      hasSameAttributes e other attrlist = true) ∧
    (∀ (e : Entry) (attr : String) (vals : List String),
      (∃ e2, mkEntry e.dn [(attr, vals)] = .ok e2) →
      isAttrUpToDate (some e) attr vals = .ok true) ∧
    (∀ (e : Entry) (dn : String) (ldapop : List (String × List String))
      (ops : List StagedOp),
      (∀ p ∈ ldapop, ∃ e2, mkEntry e.dn [(p.1, p.2)] = .ok e2) →
      filterOpsReplaceValueCb (some e) dn ldapop ops = .ok ops) := by
  have h1 : ∀ (e other : Entry) (attrlist : List String),
      hasSameAttributes e other attrlist = true := by
    intro e other attrlist
    simp only [hasSameAttributes, pyListSortReturn, List.all_eq_true]
    intro x _
    rfl
  have h2 : ∀ (e : Entry) (attr : String) (vals : List String),
      (∃ e2, mkEntry e.dn [(attr, vals)] = .ok e2) →
      isAttrUpToDate (some e) attr vals = .ok true := by
    intro e attr vals ⟨e2, he2⟩
    simp [isAttrUpToDate, he2, h1]
  refine ⟨h1, h2, ?_⟩
  intro e dn ldapop ops hok
  simp only [filterOpsReplaceValueCb]
  induction ldapop generalizing ops with
  | nil => rfl
  | cons p ps ih =>
    simp only [List.foldlM_cons]
    rw [h2 e p.1 p.2 (hok p (by simp))]
    exact ih ops (fun q hq => hok q (by simp [hq]))

/-- Witness for C10: an entry whose `nsslapd-port` is `389` is reported
"up to date" against a staged replace to `636`. -/
theorem c10_witness :
    isAttrUpToDate (some ⟨"cn=config", [("nsslapd-port", ["389"])]⟩)
      "nsslapd-port" ["636"] = .ok true :=
  c10_hasSameAttributes_always_true.2.1 _ _ _
    ⟨⟨"cn=config", [("nsslapd-port", ["636"])]⟩, by rfl⟩

/-! ## C9: a missing `dse.ldif` is the "absent" fact, a malformed one is fatal

`ConfigInstance.exists` tests `os.access(dsePath, os.R_OK)`;
`ConfigInstance.getDSE` parses the file only when it exists, and
`ConfigInstance._stateAction` answers the state option's FACT query with
`'present'`/`'absent'` from `exists()`. The file system is embedded as a
map from paths to file contents (as a list of lines); a bound path is a
readable file. -/

def FileSys : Type := List (String × List String)

/-- `os.access(dsePath, os.R_OK)` / opening the file for reading. -/
def readFile (fs : FileSys) (dsePath : String) : Option (List String) :=
  (fs.find? (fun p => p.1 == dsePath)).map Prod.snd

/-- `ConfigInstance.exists`: `os.access(dsePath, os.R_OK)`. -/
def configInstanceExists (fs : FileSys) (dsePath : String) : Bool :=
  ((fs.find? (fun p => p.1 == dsePath)).map Prod.snd).isSome

/-- `ConfigInstance._stateAction` on `OptionAction.FACT`:
`'present'` when `self.exists()`, else `'absent'`. -/
def stateActionFACT (fs : FileSys) (dsePath : String) : String :=
  if configInstanceExists fs dsePath then "present" else "absent"

/-- Modelled from the spec: the persisted `dse.ldif` is a sequence of LDIF
records separated by blank lines. (The actual parser is
`ldif.LDIFRecordList` from the external python-ldap library, which is not
part of this repository.) -/
def splitRecords (lines : List String) : List (List String) :=
  (lines.foldr
    (fun l acc =>
      if l = "" then [] :: acc
      else
        match acc with
        | [] => [[l]]
        | g :: gs => (l :: g) :: gs)
    []).filter (fun g => !g.isEmpty)

/-- Split an LDIF line at its first colon. -/
def splitColon : List Char → Option (List Char × List Char)
  | [] => none
  | c :: cs =>
    if c = ':' then some ([], cs)
    else
      match splitColon cs with
      | some (a, b) => some (c :: a, b)
      | none => none

/-- Drop the single space that follows the colon of an LDIF line. -/
def dropOneSpace : List Char → List Char
  | ' ' :: cs => cs
  | cs => cs

/-- Modelled from the spec: an LDIF record line is `attr: value`; a line
without a colon is a fatal parse error. -/
def parseAttrLine (l : String) : Except String (String × String) :=
  match splitColon l.data with
  | some (a, v) => .ok (⟨a⟩, ⟨dropOneSpace v⟩)
  | none => .error ("Missing colon in LDIF line: " ++ l)

/-- Modelled from the spec: each record must start with a `dn:` line naming
the entry, followed by `attr: value` lines; a record whose DN line is
missing is a fatal parse error. -/
def parseRecord (ls : List String) :
    Except String (String × List (String × String)) :=
  match ls with
  | [] => .error "Empty LDIF record"
  | l :: rest =>
    match parseAttrLine l with
    | .error e => .error e
    | .ok (a, v) =>
      if a = "dn" then
        match rest.mapM parseAttrLine with
        | .error e => .error e
        | .ok avs => .ok (v, avs)
      else .error "LDIF record without dn line"

/-- Accumulate one parsed `attr: value` pair into an entry's attribute
dict, appending to the value list of an existing attribute. -/
def dseAddAV (attrs : List (String × List String)) (a v : String) :
    List (String × List String) :=
  match attrs with
  | [] => [(a, [v])]
  | (a0, vs) :: rest =>
    if keyEq a0 a then (a0, vs ++ [v]) :: rest
    else (a0, vs) :: dseAddAV rest a v

/-- Build the `Entry(dn, entry)` of one parsed record. -/
def recordToEntry (dn : String) (avs : List (String × String)) : Entry :=
  ⟨dn, avs.foldl (fun acc p => dseAddAV acc p.1 p.2) []⟩

/-- `DSE.__init__`: parse the file's records and build the `dn2entry` map
keyed by the normalized DN; a parse failure propagates as a fatal error. -/
def DSE_build (lines : List String) :
    Except String (List (String × Entry)) :=
  match (splitRecords lines).mapM parseRecord with
  | .error e => .error e
  | .ok recs =>
    .ok (recs.foldl
      (fun m r =>
        dictUpd keyEq (fun _ => recordToEntry r.1 r.2)
          (recordToEntry r.1 r.2) m r.1)
      [])

/-- `ConfigInstance.getDSE`: `DSE(path)` when the file exists (fatal on a
parse error), `None` otherwise. -/
def getDSE (fs : FileSys) (dsePath : String) :
    Except String (Option (List (String × Entry))) :=
  match readFile fs dsePath with
  | none => .ok none
  | some lines =>
    match DSE_build lines with
    | .ok m => .ok (some m)
    | .error e => .error e

/-- C9: a missing persisted configuration file is never a parse error.
When the `dse.ldif` path is not a readable file, `ConfigInstance.exists`
is false, the state option's FACT query answers `"absent"`, and `getDSE`
returns `None` without an error; a record whose first line is not a `dn:`
line is a fatal parse error, and a file whose records fail to parse makes
`getDSE` fail with that error. -/
theorem c9_missing_file_absent_fact :
    (∀ fs p, readFile fs p = none →
      configInstanceExists fs p = false ∧
      stateActionFACT fs p = "absent" ∧
      getDSE fs p = Except.ok none) ∧
    (∀ l rest a v, parseAttrLine l = .ok (a, v) → a ≠ "dn" →
      parseRecord (l :: rest) = .error "LDIF record without dn line") ∧
    (∀ fs p lines msg, readFile fs p = some lines →
      (splitRecords lines).mapM parseRecord = .error msg →
      getDSE fs p = .error msg) := by
  refine ⟨?_, ?_, ?_⟩
  · intro fs p h
    have h2 : (fs.find? (fun q => q.1 == p)).map Prod.snd = none := h
    refine ⟨?_, ?_, ?_⟩
    · simp only [configInstanceExists, h2, Option.isSome_none]
    · simp only [stateActionFACT, configInstanceExists, h2, Option.isSome_none,
        Bool.false_eq_true, if_false]
    · simp only [getDSE, h]
  · intro l rest a v hline hne
    simp only [parseRecord, hline, if_neg hne]
  · intro fs p lines msg hread hparse
    simp only [getDSE, hread, DSE_build, hparse]

/-- Witness for C9: an empty file system lacks the instance's `dse.ldif`,
the fact is `"absent"` and `getDSE` succeeds with `None`; a one-record
file starting with `cn: config` instead of a `dn:` line is a fatal parse
error. -/
theorem c9_witness :
    stateActionFACT [] "/etc/dirsrv/slapd-i1/dse.ldif" = "absent" ∧
    getDSE [] "/etc/dirsrv/slapd-i1/dse.ldif" = Except.ok none ∧
    getDSE [("/etc/dirsrv/slapd-i1/dse.ldif", ["cn: config"])]
        "/etc/dirsrv/slapd-i1/dse.ldif"
      = Except.error "LDIF record without dn line" := by
  have h := c9_missing_file_absent_fact
  refine ⟨(h.1 [] _ rfl).2.1, (h.1 [] _ rfl).2.2, ?_⟩
  refine h.2.2 _ _ ["cn: config"] _ rfl ?_
  have hrec := h.2.1 "cn: config" [] "cn" "config" rfl (by decide)
  rw [show splitRecords ["cn: config"] = [["cn: config"]] from rfl,
    List.mapM_cons, hrec]
  rfl

/-! ## Entities (`ds389_entities.py`)

Python values reaching `str()` conversions in the entities layer. Entity
attributes (set through `setattr` with `Key` names) are embedded as
`Key`-keyed association lists of `PyObj`; `getattr(x, name, None)` is
`eget`. -/

inductive PyObj where
  | none
  | str (s : String)
  | int (n : Int)
  | bool (b : Bool)
  deriving Repr, DecidableEq

/-- Python `str()` of an attribute value (`str(None) = 'None'`). -/
def pyStr : PyObj → String
  | .none => "None"
  | .str s => s
  | .int n => toString n
  | .bool true => "True"
  | .bool false => "False"

def EntAttrs : Type := List (String × PyObj)

/-- `getattr(x, name, None)` through the `Key`-normalized attribute dict. -/
def eget (e : EntAttrs) (name : String) : PyObj :=
  (kfind e name).getD PyObj.none

/-- `ds389_entities.Option.__init__` fields used by the reconciler (`desc`,
`configname`, `configtag`, `choice` and `otype` play no role in the claims
and are omitted). -/
structure Opt where
  name : String
  prio : Nat
  actioncbname : Option String
  dsename : Option String
  dsedn : Option String
  isignoredcb : Option String
  hidden : Bool
  readonly : Bool
  required : Bool
  vdef : Option String
  deriving Repr, DecidableEq

/-- `cn={bename},cn=ldbm database,cn=plugins,cn=config` (`ConfigBackend.BEDN`). -/
def BEDN : String := "cn={bename},cn=ldbm database,cn=plugins,cn=config"

/-- `ChangelogOption.DSEDN`. -/
def CHANGELOGDN : String :=
  "cn=changelog,cn={bename},cn=ldbm database,cn=plugins,cn=config"

/-- `dsename.replace("-", "_")` (`DSEOption.__init__` computing the name). -/
def pyReplaceDash (s : String) : String :=
  ⟨s.data.map (fun c => if c = '-' then '_' else c)⟩

/-- `Option(name, desc)` with the default keyword values. -/
def mkOpt (name : String) : Opt :=
  ⟨name, 10, none, none, none, none, false, false, false, none⟩

/-- `DSEOption(dsename, dsedn, vdef, desc)`. -/
def DSEOption (dsename dsedn : String) (vdef : Option String) : Opt :=
  ⟨pyReplaceDash dsename, 10, none, some dsename, some dsedn, none,
    false, false, false, vdef⟩

/-- `ConfigOption(name, dsename, dsedn, vdef, desc)`. -/
def ConfigOption (name dsename dsedn : String) (vdef : Option String) : Opt :=
  ⟨name, 10, none, some dsename, some dsedn, none, false, false, false, vdef⟩

/-- `SpecialOption(name, prio, desc, vdef)`: the action callback is
`_{name}Action`. -/
def SpecialOption (name : String) (prio : Nat) (vdef : Option String) : Opt :=
  ⟨name, prio, some ("_" ++ name ++ "Action"), none, none, none,
    false, false, false, vdef⟩

/-- `AgmtTgtOption(name, desc)`: priority 8, no dse mapping. -/
def AgmtTgtOption (name : String) : Opt :=
  ⟨name, 8, none, none, none, none, false, false, false, none⟩

/-- `ReplicaOption(name, desc)`: `dseName='nsDS5'+name` and no `dseDN`
(the class constant `ReplicaOption.DSEDN` is never passed to
`Option.__init__`). -/
def ReplicaOption (name : String) : Opt :=
  ⟨name, 10, none, some ("nsDS5" ++ name), none, none, false, false, false, none⟩

/-- `ChangelogOption(name, desc)`: `dseName='nsslapd'+name`,
`dseDN=ChangelogOption.DSEDN`. -/
def ChangelogOption (name : String) : Opt :=
  ⟨name, 10, none, some ("nsslapd" ++ name), some CHANGELOGDN, none,
    false, false, false, none⟩

/-- `ConfigBackend.OTHER_OPTIONS`. -/
def OTHER_OPTIONS : List Opt := [
  DSEOption "readonly" BEDN (some "False"),
  { ConfigOption "require_index" "nsslapd-require-index" BEDN none with
      isignoredcb := some "_is_none_ignored" },
  DSEOption "entry-cache-number" BEDN none,
  DSEOption "entry-cache-size" BEDN none,
  DSEOption "dn-cache-size" BEDN none,
  DSEOption "directory" BEDN none,
  DSEOption "db-deadlock" BEDN none,
  DSEOption "chain-bind-dn" BEDN none,
  DSEOption "chain-bind-pw" BEDN none,
  DSEOption "chain-urls" BEDN none,
  { ConfigOption "suffix" "nsslapd-suffix" BEDN none with
      prio := 5, readonly := true, required := true },
  ConfigOption "sample_entries" "sample_entries" BEDN none,
  SpecialOption "state" 2 (some "present"),
  ChangelogOption "ChangelogEncryptionAlgorithm",
  ChangelogOption "ChangelogMaxAge",
  ChangelogOption "ChangelogMaxEntries",
  ChangelogOption "ChangelogSymetricKey",
  ChangelogOption "ChangelogTrimInterval"]

/-- `ConfigBackend.AGMT_OPTIONS`. -/
def AGMT_OPTIONS : List Opt := [
  AgmtTgtOption "ReplicaBindMethod",
  AgmtTgtOption "ReplicaBootstrapBindDN",
  AgmtTgtOption "ReplicaBootstrapBindMethod",
  AgmtTgtOption "ReplicaBootstrapCredentials",
  AgmtTgtOption "ReplicaBootstrapTransportInfo",
  AgmtTgtOption "ReplicaHost",
  AgmtTgtOption "ReplicaPort",
  AgmtTgtOption "ReplicaTransportInfo"]

/-- `ConfigBackend.REPLICA_OPTIONS`. -/
def REPLICA_OPTIONS : List Opt := [
  ReplicaOption "ReplicaBackoffMax",
  ReplicaOption "ReplicaBackoffMin",
  ReplicaOption "ReplicaBindDNGroupCheckInterval",
  ReplicaOption "ReplicaBindDNGroup",
  ReplicaOption "ReplicaId",
  ReplicaOption "ReplicaPreciseTombstonePurging",
  ReplicaOption "ReplicaProtocolTimeout",
  ReplicaOption "ReplicaPurgeDelay",
  ReplicaOption "ReplicaReferral",
  ReplicaOption "ReplicaReleaseTimeout",
  ReplicaOption "ReplicaTombstonePurgeInterval",
  ReplicaOption "ReplicaUpdateSchedule",
  SpecialOption "ReplicaRole" 9 none,
  ReplicaOption "ReplicaWaitForAsyncResults"]

/-- `ConfigBackend.REPLICA_MANAGER_OPTIONS`. -/
def REPLICA_MANAGER_OPTIONS : List Opt := [
  { ReplicaOption "ReplicaCredentials" with
      isignoredcb := some "_is_password_ignored", hidden := true },
  ReplicaOption "ReplicaBindDN"]

/-- `ConfigBackend.OPTIONS = OTHER_OPTIONS + AGMT_OPTIONS + REPLICA_OPTIONS
+ REPLICA_MANAGER_OPTIONS`. -/
def ConfigBackend_OPTIONS : List Opt :=
  OTHER_OPTIONS ++ AGMT_OPTIONS ++ REPLICA_OPTIONS ++ REPLICA_MANAGER_OPTIONS

/-- `ConfigRoot.OPTIONS`. -/
def ConfigRoot_OPTIONS : List Opt := [
  SpecialOption "ds389_prefix" 1 none,
  SpecialOption "state" 2 (some "present")]

/-! ## `getAllActions` (`MyConfigObject.getAllActions`) -/

/-- `OptionAction` (its `target` and `facts` references stay implicit: the
embedding works on one entity at a time). -/
structure OptAction where
  opt : Opt
  vfrom : String
  vto : String
  deriving Repr, DecidableEq

/-- `Option._get_action`: one action when the option has an action
callback, one generic `Option._action` when it has a `dsedn`, none
otherwise. -/
def get_action (o : Opt) (vfrom vto : String) : List OptAction :=
  match o.actioncbname with
  | some _ => [⟨o, vfrom, vto⟩]
  | none =>
    match o.dsedn with
    | some _ => [⟨o, vfrom, vto⟩]
    | none => []

/-- The action-collecting loop of `getAllActions`:
`vfrom = str(getattr(facts, option.name, None))`,
`vto = str(getattr(self, option.name, None))`. -/
def mkActions (opts : List Opt) (facts self : EntAttrs) : List OptAction :=
  match opts with
  | [] => []
  | o :: rest =>
    get_action o (pyStr (eget facts o.name)) (pyStr (eget self o.name))
      ++ mkActions rest facts self

/-- One step of Python's stable `sorted(actions, key=lambda x: x.getPrio())`:
insert after every element of smaller-or-equal priority. -/
def insertByPrio (a : OptAction) : List OptAction → List OptAction
  | [] => [a]
  | b :: rest =>
    if b.opt.prio ≤ a.opt.prio then b :: insertByPrio a rest
    else a :: b :: rest

/-- `MyConfigObject.getAllActions(facts)`: collect then stable-sort by
priority. -/
def getAllActions (opts : List Opt) (facts self : EntAttrs) : List OptAction :=
  (mkActions opts facts self).foldl (fun acc a => insertByPrio a acc) []

/-! ## Replica roles (`ConfigBackend.REPL_ROLES`, `get_repl_role`) -/

inductive ReplRole where
  | standalone
  | supplier
  | hub
  | consumer
  deriving Repr, DecidableEq

/-- One value of `ConfigBackend.REPL_ROLES`:
`(nsDS5ReplicaType, nsDS5Flags, ReplicaRole, promoteWeight)`. -/
structure RoleInfo where
  rtype : String
  rflags : String
  role : ReplRole
  weight : Nat
  deriving Repr, DecidableEq

/-- `ConfigBackend.REPL_ROLES` in dict insertion order; the keys are
`Key`-hashed, so lookup goes through `keyEq`. -/
def REPL_ROLES : List (Option String × RoleInfo) := [
  (none, ⟨"0", "0", .standalone, 0⟩),
  (some "None", ⟨"0", "0", .standalone, 0⟩),
  (some "supplier", ⟨"3", "1", .supplier, 3⟩),
  (some "hub", ⟨"2", "1", .hub, 2⟩),
  (some "consumer", ⟨"2", "0", .consumer, 1⟩)]

/-- `ConfigBackend.get_repl_role`: a falsy value maps to
`REPL_ROLES[None]`; an unknown role raises `AttributeError`. -/
def get_repl_role (val : Option String) : Except String RoleInfo :=
  match val with
  | none => .ok ⟨"0", "0", .standalone, 0⟩
  | some s =>
    match (REPL_ROLES.find? (fun p =>
        match p.1 with
        | none => false
        | some k => keyEq k s)).map Prod.snd with
    | some r => .ok r
    | none => .error "Invalid ReplicaRole value in backend"

/-- `str()`-level value turned back into the optional value
`_is_none_ignored` tests (`'None'` means unset). -/
def strToMaybe (s : String) : Option String :=
  if s = "None" then none else some s

/-! ## `get_interresting_properties` (`MyConfigObject`) -/

structure IAProps where
  lall : List String
  dset : List (String × String)
  dchanged : List (String × String)
  deriving Repr, DecidableEq

/-- Plain-string dict update (Python dicts keyed by `str(option.dsename)`). -/
def sdictSet (m : List (String × String)) (k v : String) :
    List (String × String) :=
  dictUpd (fun a b => a == b) (fun _ => v) v m k

/-- `MyConfigObject.get_interresting_properties(facts, options_list,
ignored_options)` with its default `dn=None` (both call sites use it):
skip ignored names and options without a dse attribute name, stringify
both values, collect `lall`, `dset` (value set) and `dchanged` (value
changed). List-typed values do not occur in the replica options handled
here, so the `isinstance(..., list)` branch is not taken. -/
def get_interresting_properties (facts self : EntAttrs) (opts : List Opt)
    (ignored : List String) : IAProps :=
  opts.foldl
    (fun r o =>
      if ignored.any (fun n => keyEq n o.name) then r
      else
        let dsename := o.dsename.getD "None"
        if dsename = "None" then r
        else
          let vfrom := pyStr (eget facts o.name)
          let vto := pyStr (eget self o.name)
          let r := { r with lall := r.lall ++ [dsename] }
          let r := if vto ≠ "None" then { r with dset := sdictSet r.dset dsename vto }
            else r
          if vto ≠ vfrom then { r with dchanged := sdictSet r.dchanged dsename vto }
          else r)
    ⟨[], [], []⟩

/-- Whether the set-properties dict carries `nsDS5ReplicaId`
(`ridname in dset`, plain-string dict membership). -/
def dsetHasRid (facts target : EntAttrs) : Bool :=
  ((get_interresting_properties facts target REPLICA_OPTIONS
    ["ReplicaRole"]).dset).any (fun p => p.1 == "nsDS5ReplicaId")

/-! ## `ConfigBackend._ReplicaRoleAction` (DESC branch) -/

/-- The DESC message (instance and suffix names elided). -/
def roleDescMsg (vto : Option String) : String :=
  match vto with
  | some v => "Configure replication as " ++ v ++ " for backend"
  | none => "Unconfigure replication for backend"

/-- `ConfigBackend._ReplicaRoleAction` on `OptionAction.DESC`:
`_is_none_ignored` first resets `action.vto` to `None`; the consistency
check then requires a supplier to carry `nsDS5ReplicaId` in the set
replica properties and any other role not to, raising `AttributeError`
otherwise. -/
def ReplicaRoleActionDESC (target facts : EntAttrs) (vto0 : String) :
    Except String String :=
  let vto := strToMaybe vto0
  match get_repl_role vto with
  | .error e => .error e
  | .ok newrole =>
    let hasRid := dsetHasRid facts target
    if newrole.role = ReplRole.supplier then
      if hasRid then .ok (roleDescMsg vto)
      else .error "Inconsistency between ReplicaRole and ReplicaId values in backend (supplier should have a Replicaid)."
    else
      if hasRid then
        .error "Inconsistency between ReplicaRole and ReplicaId values in backend (role should not have a Replicaid)."
      else .ok (roleDescMsg vto)

/-! ## The `MyConfigObject.update` action loop -/

/-- `option.isignoredcb` evaluation for the options that produce actions:
`_is_none_ignored(self, action)` is `action.vto is None or action.vto ==
'None'`. (`_is_password_ignored` is only carried by `ReplicaCredentials`,
which yields no action.) -/
def backendIsIgnored (a : OptAction) : Bool :=
  match a.opt.isignoredcb with
  | some cb => if cb = "_is_none_ignored" then a.vto == "None" else false
  | none => false

/-- `ConfigBackend`-side `action.perform(OptionAction.DESC)` dispatch
through `action.func`: the two special callbacks of the backend options,
and `Option._action` for dse-mapped options (whose message leaves the
`getPath` placeholders of the entry DN uninstantiated). -/
def backendDESC (target facts : EntAttrs) (a : OptAction) :
    Except String (Option String) :=
  match a.opt.actioncbname with
  | some cb =>
    if cb = "_ReplicaRoleAction" then
      (ReplicaRoleActionDESC target facts a.vto).map some
    else if cb = "_stateAction" then
      let vto := if a.vto = "None" then "present" else a.vto
      .ok (some (if vto = "present" then
          "Creating backend " ++ pyStr (eget target "name") ++ " on suffix "
            ++ pyStr (eget target "suffix")
        else
          "Deleting backend " ++ pyStr (eget target "name") ++ " on suffix "
            ++ pyStr (eget target "suffix")))
    else .ok none
  | none =>
    if a.opt.hidden then
      .ok (some ("Set " ++ a.opt.dsename.getD "None" ++ " in "
        ++ a.opt.dsedn.getD "None"))
    else
      .ok (some ("Set " ++ a.opt.dsename.getD "None" ++ ":" ++ a.vto
        ++ " in " ++ a.opt.dsedn.getD "None"))

/-- The per-entity action loop of `MyConfigObject.update` (with
`onlycheck=False`, `args=None` and no deletion in flight): skip actions
whose values agree, skip ignored options, perform DESC (whose exception
aborts the update), append a truthy message to the summary when
`display_msg` holds, then perform the option's UPDATE; the result is the
summary together with the names of the options whose UPDATE phase ran. -/
def updStep (desc : OptAction → Except String (Option String))
    (ign : OptAction → Bool) (display_msg : Bool)
    (acc : List String × List String) (a : OptAction) :
    Except String (List String × List String) :=
  if a.vfrom == a.vto then .ok acc
  else if ign a then .ok acc
  else
    match desc a with
    | .error e => .error e
    | .ok msg =>
      let summary :=
        match msg with
        | some m => if m ≠ "" ∧ display_msg then acc.1 ++ [m] else acc.1
        | none => acc.1
      .ok (summary, acc.2 ++ [a.opt.name])

def updateActions (desc : OptAction → Except String (Option String))
    (ign : OptAction → Bool) (display_msg : Bool)
    (actions : List OptAction) : Except String (List String × List String) :=
  actions.foldlM (updStep desc ign display_msg) ([], [])

/-! ## Replica transitions (`ConfigBackend.update_replica` and helpers)

The side effects on the server (lib389 `Replica` calls and the property
synchronisation writes) are embedded as an emitted event list. -/

inductive ReplEvent where
  | demote (r : ReplRole)
  | deleteReplica
  | createReplica (rtype rflags : String) (props : List (String × String))
  | promote (r : ReplRole) (args : List (String × String))
  | syncProps (dchanged : List (String × String))
  deriving Repr, DecidableEq

/-- `ConfigBackend.replica_demote_or_delete(old_role, new_role,
rid_changed, should_delete, onlycheck)`: pick the demotion target (HUB on
a replica-id change, CONSUMER when deleting, otherwise the desired role),
demote when there is a replica whose role differs from it, then delete
when asked. -/
def replica_demote_or_delete (old_role new_role : Option String)
    (rid_changed should_delete : Bool) : Except String (List ReplEvent) :=
  match get_repl_role old_role with
  | .error e => .error e
  | .ok tf_from =>
    match get_repl_role new_role with
    | .error e => .error e
    | .ok tf_to =>
      let demote_role :=
        if rid_changed then ReplRole.hub
        else if should_delete then ReplRole.consumer
        else tf_to.role
      if tf_from.weight > 0 then
        let evs := if tf_from.role ≠ demote_role then
            [ReplEvent.demote demote_role]
          else []
        let evs := if should_delete then evs ++ [ReplEvent.deleteReplica]
          else evs
        .ok evs
      else
        .ok []

/-- The `promote_args_config` table of `replica_create_or_promote`. -/
def promote_args_config : List (String × String) := [
  ("nsDS5ReplicaId", "rid"),
  ("nsDS5ReplicaBindDN", "binddn"),
  ("nsDS5ReplicaBindDNGroup", "binddn_group")]

/-- `ConfigBackend.replica_create_or_promote(new_role, properties,
should_create, onlycheck)`: create a replica entry with the role's type
and flags plus the set properties, or promote the existing replica with
the recognised promote arguments. -/
def replica_create_or_promote (new_role : Option String)
    (props : List (String × String)) (should_create : Bool) :
    Except String (List ReplEvent) :=
  match get_repl_role new_role with
  | .error e => .error e
  | .ok tf_to =>
    if should_create then
      .ok [ReplEvent.createReplica tf_to.rtype tf_to.rflags props]
    else
      let pargs := props.filterMap (fun p =>
        (promote_args_config.find? (fun c => c.1 == p.1)).map
          (fun c => (c.2, p.2)))
      .ok [ReplEvent.promote tf_to.role pargs]

/-- `vfrom` of `update_replica`: the last `REPL_ROLES` key whose
`(type, flags)` pair matches the observed replica entry (dict iteration
order; the `Key('None')` entry shadows the `None` one for a standalone
replica). -/
def vfromOfObserved (rtype rflags : String) : Option String :=
  REPL_ROLES.foldl
    (fun acc p => if p.2.rtype = rtype ∧ p.2.rflags = rflags then p.1 else acc)
    none

/-- `vto` of `update_replica`: `self.replicarole`, or `None` when the
attribute is absent. -/
def vtoOf (target : EntAttrs) : Option String :=
  match kfind target "replicarole" with
  | some v => some (pyStr v)
  | none => none

/-- The observed replica entry: `(nsDS5ReplicaType, nsDS5Flags,
nsDS5ReplicaID)` when `Replicas(inst).get(suffix)` finds one. -/
def Observed : Type := Option (String × String × Option Int)

/-- The observed replica id as the facts attribute value. -/
def ridOf (observed : Observed) : PyObj :=
  match observed with
  | some (_, _, some r) => PyObj.int r
  | _ => PyObj.none

/-- The observed role key (`vfrom`). -/
def vfromOf (observed : Observed) : Option String :=
  match observed with
  | some (rtype, rflags, _) => vfromOfObserved rtype rflags
  | none => none

/-- The replica properties examined by `update_replica`: the facts carry
the observed replica id (`setattr(facts, 'replicaid', rid)` runs first). -/
def replicaProps (target facts : EntAttrs) (observed : Observed) : IAProps :=
  get_interresting_properties
    (dictUpd keyEq (fun _ => ridOf observed) (ridOf observed) facts "replicaid")
    target (REPLICA_OPTIONS ++ [ReplicaOption "ReplicaBindDN"]) []

/-- `'nsDS5ReplicaId' in dchanged`. -/
def ridChanged (target facts : EntAttrs) (observed : Observed) : Bool :=
  (replicaProps target facts observed).dchanged.any
    (fun p => p.1 == "nsDS5ReplicaId")

/-- `ConfigBackend.update_replica(facts, inst, onlycheck)`: read the
observed replica state, store the observed replica id into the facts,
resolve both roles, compute the changed/set replica properties, then
demote/delete and/or create/promote by weight comparison, and finally
synchronise the remaining modified properties when the replica was
neither created nor deleted (the `dchanged.pop('replicaid')` call removes
nothing: the dict keys are dse attribute names such as
`nsDS5ReplicaId`). -/
def update_replica (target facts : EntAttrs) (observed : Observed) :
    Except String (List ReplEvent) :=
  match get_repl_role (vfromOf observed) with
  | .error e => .error e
  | .ok tf_from =>
    match get_repl_role (vtoOf target) with
    | .error e => .error e
    | .ok tf_to =>
      let dset := (replicaProps target facts observed).dset
      let dchanged := (replicaProps target facts observed).dchanged
      let rid_changed := ridChanged target facts observed
      match
        (if rid_changed || decide (tf_from.weight > tf_to.weight) then
          replica_demote_or_delete (vfromOf observed) (vtoOf target)
            rid_changed (tf_to.weight == 0)
        else .ok []) with
      | .error e => .error e
      | .ok evs1 =>
        match
          (if rid_changed || decide (tf_from.weight < tf_to.weight) then
            replica_create_or_promote (vtoOf target) dset (tf_from.weight == 0)
          else .ok []) with
        | .error e => .error e
        | .ok evs2 =>
          let evs3 :=
            if tf_from.weight * tf_to.weight ≠ 0 then
              [ReplEvent.syncProps
                (dchanged.filter (fun p => !(p.1 == "replicaid")))]
            else []
          .ok (evs1 ++ evs2 ++ evs3)

/-! ## `ConfigRoot._stateAction` and the root update pass -/

/-- The apostrophe character of Python's `repr` on strings. -/
def squote : Char := Char.ofNat 39

/-- Python `str()` of a list of strings (`repr` of each element). -/
def pyReprStrList (l : List String) : String :=
  "[" ++ String.intercalate ", "
    (l.map (fun s => ⟨squote :: s.data ++ [squote]⟩)) ++ "]"

/-- `ConfigRoot._get_instances_list` followed by the DESC branch of
`ConfigRoot._stateAction`: compute the instances to add and remove from
the existing and requested instance lists and the desired state, then
return `str(msg)` of the per-instance messages — `"[]"` when the list is
empty. -/
def rootStateDESC (existing requested : List String) (vto : String) : String :=
  let instances_to_add := requested.filter (fun i => !existing.contains i)
  let instances_to_remove := existing.filter (fun i => !requested.contains i)
  let p :=
    if vto = "absent" then ([], instances_to_remove ++ existing)
    else if vto = "stopped" ∨ vto = "started" then ([], [])
    else if vto ≠ "updated" then (instances_to_add, [])
    else (instances_to_add, instances_to_remove)
  pyReprStrList
    (p.1.map (fun i => "Creating instance: " ++ i)
      ++ p.2.map (fun i => "Deleting instance: " ++ i))

/-- `ConfigRoot`-side `action.perform(OptionAction.DESC)` dispatch: the
root options are the two special options `ds389_prefix` and `state`. -/
def rootDESC (existing requested : List String) (a : OptAction) :
    Except String (Option String) :=
  match a.opt.actioncbname with
  | some cb =>
    if cb = "_stateAction" then
      .ok (some (rootStateDESC existing requested a.vto))
    else if cb = "_ds389_prefixAction" then
      .ok (some ("Set PREFIX environment variable to " ++ a.vto))
    else .ok none
  | none => .ok none

/-- One root-level pass of `MyConfigObject.update` over
`ConfigRoot.OPTIONS` (the root has no config instance, so `display_msg`
stays true; the root options carry no `isignoredcb`). -/
def rootUpdatePass (existing requested : List String)
    (rootAttrs factsAttrs : EntAttrs) :
    Except String (List String × List String) :=
  updateActions (rootDESC existing requested) (fun _ => false) true
    (getAllActions ConfigRoot_OPTIONS factsAttrs rootAttrs)

/-! ## C8: getAllActions ordering -/

def prioLE (a b : OptAction) : Prop := a.opt.prio ≤ b.opt.prio

theorem insertByPrio_length (a : OptAction) (l : List OptAction) :
    (insertByPrio a l).length = l.length + 1 := by
  induction l with
  | nil => rfl
  | cons b rest ih =>
    simp only [insertByPrio]
    by_cases h : b.opt.prio ≤ a.opt.prio
    · simp [h, ih]
    · simp [h]

theorem mem_insertByPrio (a x : OptAction) (l : List OptAction) :
    x ∈ insertByPrio a l ↔ x = a ∨ x ∈ l := by
  induction l with
  | nil => simp [insertByPrio]
  | cons b rest ih =>
    simp only [insertByPrio]
    by_cases h : b.opt.prio ≤ a.opt.prio
    · rw [if_pos h]
      simp only [List.mem_cons, ih]
      tauto
    · rw [if_neg h]
      exact List.mem_cons

theorem insertByPrio_pairwise (a : OptAction) (l : List OptAction)
    (h : l.Pairwise prioLE) : (insertByPrio a l).Pairwise prioLE := by
  induction l with
  | nil => simp [insertByPrio, prioLE]
  | cons b rest ih =>
    rcases List.pairwise_cons.mp h with ⟨hb, hrest⟩
    simp only [insertByPrio]
    by_cases hle : b.opt.prio ≤ a.opt.prio
    · rw [if_pos hle]
      refine List.pairwise_cons.mpr ⟨?_, ih hrest⟩
      intro x hx
      rcases (mem_insertByPrio a x rest).mp hx with rfl | hx
      · exact hle
      · exact hb x hx
    · rw [if_neg hle]
      refine List.pairwise_cons.mpr ⟨?_, h⟩
      intro x hx
      have hab : a.opt.prio ≤ b.opt.prio := Nat.le_of_not_le hle
      rcases List.mem_cons.mp hx with rfl | hx
      · exact hab
      · exact Nat.le_trans hab (hb x hx)

theorem foldl_insertByPrio_pairwise (l acc : List OptAction)
    (h : acc.Pairwise prioLE) :
    (l.foldl (fun acc a => insertByPrio a acc) acc).Pairwise prioLE := by
  induction l generalizing acc with
  | nil => exact h
  | cons a rest ih => exact ih _ (insertByPrio_pairwise a acc h)

theorem foldl_insertByPrio_length (l acc : List OptAction) :
    (l.foldl (fun acc a => insertByPrio a acc) acc).length
      = acc.length + l.length := by
  induction l generalizing acc with
  | nil => rfl
  | cons a rest ih =>
    simp only [List.foldl_cons, ih, insertByPrio_length, List.length_cons]
    omega

theorem get_action_length (o : Opt) (vf vt : String) :
    (get_action o vf vt).length
      = if o.actioncbname.isSome || o.dsedn.isSome then 1 else 0 := by
  unfold get_action
  cases o.actioncbname <;> cases o.dsedn <;> simp

theorem mkActions_length (opts : List Opt) (facts self : EntAttrs) :
    (mkActions opts facts self).length
      = (opts.filter
          (fun o => o.actioncbname.isSome || o.dsedn.isSome)).length := by
  induction opts with
  | nil => rfl
  | cons o rest ih =>
    simp only [mkActions, List.length_append, ih, List.filter_cons,
      get_action_length]
    by_cases h : (o.actioncbname.isSome || o.dsedn.isSome) = true
    · simp only [h, if_true]
      rw [List.length_cons]
      omega
    · simp [h]

/-- C8 (corrected): `getAllActions` yields one `OptionAction` per option
that has an action callback or a dse entry DN (the other options yield
none), and the result is sorted by priority alone — the sort key is
`x.getPrio()`, not the `(priority, required, name)` triple. -/
theorem c8_one_action_per_mapped_option_sorted_by_prio
    (opts : List Opt) (facts self : EntAttrs) :
    (getAllActions opts facts self).Pairwise prioLE ∧
    (getAllActions opts facts self).length
      = (opts.filter
          (fun o => o.actioncbname.isSome || o.dsedn.isSome)).length := by
  constructor
  · exact foldl_insertByPrio_pairwise _ _ List.Pairwise.nil
  · rw [getAllActions, foldl_insertByPrio_length, mkActions_length]
    simp

/-- C8 (counterexample to the spec wording): on `ConfigBackend` with empty
facts and desired attributes, only 19 of the 42 options produce an action,
and among the equal-priority actions the original option order is kept
rather than the claimed required-before-optional/name order: the action of
`readonly` (index 3) precedes the action of `chain_bind_dn` (index 10)
although both are optional priority-10 options and
`"chain_bind_dn" < "readonly"`. -/
theorem c8_counterexample :
    (getAllActions ConfigBackend_OPTIONS [] []).length = 19 ∧
    ConfigBackend_OPTIONS.length = 42 ∧
    ((getAllActions ConfigBackend_OPTIONS [] []).map
        (fun a => (a.opt.prio, a.opt.required, a.opt.name))).get? 3
      = some (10, false, "readonly") ∧
    ((getAllActions ConfigBackend_OPTIONS [] []).map
        (fun a => (a.opt.prio, a.opt.required, a.opt.name))).get? 10
      = some (10, false, "chain_bind_dn") ∧
    "chain_bind_dn".data < "readonly".data :=
  ⟨by rfl, by rfl, by rfl, by rfl, by decide⟩

/-! ## C1: the second root pass with desired state `updated` -/

/-- C1 (code bug): reconciliation is not idempotent for every desired
tree. With desired root state `"updated"` and one existing instance that
matches the desired tree, the second pass still runs the root state
action (the state fact is `"present"`, never `"updated"`), and
`ConfigRoot._stateAction` DESC returns `str([]) = "[]"`, a truthy string
that is appended to the summary: the second-pass summary is `["[]"]`,
not empty, so `changed` stays true forever. -/
theorem c1_second_pass_summary_not_empty :
    rootUpdatePass ["i1"] ["i1"] [("state", PyObj.str "updated")]
        [("state", PyObj.str "present")]
      = Except.ok (["[]"], ["state"]) ∧
    (["[]"] : List String) ≠ [] :=
  ⟨by rfl, by decide⟩

/-! ## C2: the replica-role consistency check -/

theorem backendDESC_ok_of_not_role (target facts : EntAttrs) (b : OptAction)
    (h : b.opt.actioncbname ≠ some "_ReplicaRoleAction") :
    ∃ m, backendDESC target facts b = Except.ok m := by
  cases hres : backendDESC target facts b with
  | ok m => exact ⟨m, rfl⟩
  | error e =>
    exfalso
    unfold backendDESC at hres
    cases hc : b.opt.actioncbname with
    | none =>
      rw [hc] at hres
      by_cases hh : b.opt.hidden = true <;> simp [hh] at hres
    | some cb =>
      have hne : ¬(cb = "_ReplicaRoleAction") := fun hcb => h (by rw [hc, hcb])
      rw [hc] at hres
      by_cases h2 : cb = "_stateAction" <;> simp [hne, h2] at hres

theorem updStep_ok_of_desc_ok (desc : OptAction → Except String (Option String))
    (ign : OptAction → Bool) (d : Bool) (acc : List String × List String)
    (b : OptAction) (h : ∃ m, desc b = Except.ok m) :
    ∃ acc2, updStep desc ign d acc b = Except.ok acc2 := by
  obtain ⟨m, hm⟩ := h
  unfold updStep
  by_cases h1 : (b.vfrom == b.vto) = true
  · exact ⟨acc, by rw [if_pos h1]⟩
  · rw [if_neg h1]
    by_cases h2 : ign b = true
    · exact ⟨acc, by rw [if_pos h2]⟩
    · rw [if_neg h2, hm]
      exact ⟨_, rfl⟩

theorem foldlM_updStep_error (desc : OptAction → Except String (Option String))
    (ign : OptAction → Bool) (d : Bool) (ra : OptAction)
    (post : List OptAction) (e : String)
    (hne : (ra.vfrom == ra.vto) = false) (hign : ign ra = false)
    (hdesc : desc ra = Except.error e) :
    ∀ pre, (∀ b ∈ pre, ∃ m, desc b = Except.ok m) →
    ∀ acc, List.foldlM (updStep desc ign d) acc (pre ++ ra :: post)
      = Except.error e := by
  intro pre
  induction pre with
  | nil =>
    intro _ acc
    have hra : updStep desc ign d acc ra = Except.error e := by
      unfold updStep
      rw [if_neg (by simp [hne]), if_neg (by simp [hign]), hdesc]
    simp only [List.nil_append, List.foldlM_cons, hra]
    rfl
  | cons b rest ih =>
    intro hpre acc
    obtain ⟨acc2, hacc2⟩ := updStep_ok_of_desc_ok desc ign d acc b
      (hpre b (by simp))
    simp only [List.cons_append, List.foldlM_cons, hacc2]
    have := ih (fun x hx => hpre x (by simp [hx])) acc2
    simpa using this

/-- C2 (corrected): the replica-role consistency check of
`ConfigBackend._ReplicaRoleAction` (DESC) raises exactly when a desired
supplier role carries no `nsDS5ReplicaId` among the set replica
properties or a non-supplier role carries one — and the update loop runs
that check (aborting the whole update with the error) only when the role
action executes at all, i.e. when the desired role value differs from
the observed fact (`action.vfrom != action.vto`); an action whose values
agree is skipped together with its check. -/
theorem c2_role_consistency_check :
    (∀ target facts vto0 r,
      get_repl_role (strToMaybe vto0) = Except.ok r →
      ((r.role = ReplRole.supplier ∧ dsetHasRid facts target = false) ∨
        (r.role ≠ ReplRole.supplier ∧ dsetHasRid facts target = true)) →
      ∃ e, ReplicaRoleActionDESC target facts vto0 = Except.error e) ∧
    (∀ target facts d pre post ra e,
      (∀ b ∈ pre, b.opt.actioncbname ≠ some "_ReplicaRoleAction") →
      ra.opt.actioncbname = some "_ReplicaRoleAction" →
      ra.opt.isignoredcb = none →
      (ra.vfrom == ra.vto) = false →
      ReplicaRoleActionDESC target facts ra.vto = Except.error e →
      updateActions (backendDESC target facts) backendIsIgnored d
        (pre ++ ra :: post) = Except.error e) := by
  constructor
  · intro target facts vto0 r hrole hbad
    unfold ReplicaRoleActionDESC
    simp only [hrole]
    rcases hbad with ⟨hs, hr⟩ | ⟨hs, hr⟩
    · rw [if_pos hs, hr]
      exact ⟨_, rfl⟩
    · rw [if_neg hs, hr]
      exact ⟨_, rfl⟩
  · intro target facts d pre post ra e hpre hra hicb hne hdesc
    have hdesc2 : backendDESC target facts ra = Except.error e := by
      simp [backendDESC, hra, hdesc, Except.map]
    have hign : backendIsIgnored ra = false := by
      simp [backendIsIgnored, hicb]
    unfold updateActions
    exact foldlM_updStep_error _ _ d ra post e hne hign hdesc2 pre
      (fun b hb => backendDESC_ok_of_not_role target facts b (hpre b hb))
      ([], [])

/-- The backend attribute set of the C2 scenario: desired role `supplier`
with no replica id, on a backend whose observed facts already report the
`supplier` role. -/
def be1Attrs : EntAttrs :=
  [("name", PyObj.str "be1"), ("suffix", PyObj.str "dc=example,dc=com"),
   ("replicarole", PyObj.str "supplier"), ("state", PyObj.str "present")]

/-- C2 (counterexample to the spec wording): with desired role `supplier`
and no replica id, but facts that also report `supplier`, every backend
action has `vfrom == vto`, so the whole update pass succeeds with an
empty summary — the consistency check never runs although the desired
configuration is exactly the022 supplier-without-replica-id violation the
claim says is always fatal. -/
theorem c2_counterexample :
    vtoOf be1Attrs = some "supplier" ∧
    dsetHasRid be1Attrs be1Attrs = false ∧
    updateActions (backendDESC be1Attrs be1Attrs) backendIsIgnored true
        (getAllActions ConfigBackend_OPTIONS be1Attrs be1Attrs)
      = Except.ok ([], []) :=
  ⟨by rfl, by rfl, by rfl⟩

/-- Witness for C2: the check itself rejects `supplier` without a replica
id, and an update pass whose action list contains the executing role
action aborts with that error. -/
theorem c2_witness :
    (∃ e, ReplicaRoleActionDESC be1Attrs be1Attrs "supplier"
      = Except.error e) ∧
    updateActions (backendDESC be1Attrs be1Attrs) backendIsIgnored true
        ([⟨SpecialOption "ReplicaRole" 9 none, "None", "supplier"⟩])
      = Except.error "Inconsistency between ReplicaRole and ReplicaId values in backend (supplier should have a Replicaid)." := by
  have h := c2_role_consistency_check
  constructor
  · exact h.1 be1Attrs be1Attrs "supplier" ⟨"3", "1", .supplier, 3⟩ (by rfl)
      (Or.inl ⟨rfl, by rfl⟩)
  · exact h.2 be1Attrs be1Attrs true [] []
      ⟨SpecialOption "ReplicaRole" 9 none, "None", "supplier"⟩ _
      (by simp) rfl rfl (by rfl) (by rfl)

/-! ## C3: demote/delete discipline of `update_replica` -/

/-- An event that neither demotes nor deletes the replica. -/
def nonRoleChange (x : ReplEvent) : Prop :=
  (∀ r, x ≠ ReplEvent.demote r) ∧ x ≠ ReplEvent.deleteReplica

theorem replica_demote_or_delete_shape (o n : Option String) (rc sd : Bool)
    (evs : List ReplEvent)
    (h : replica_demote_or_delete o n rc sd = Except.ok evs) :
    evs = [] ∨ (∃ r, evs = [ReplEvent.demote r]) ∨
    (sd = true ∧ evs = [ReplEvent.deleteReplica]) ∨
    (sd = true ∧ ∃ r, evs = [ReplEvent.demote r, ReplEvent.deleteReplica]) := by
  unfold replica_demote_or_delete at h
  cases hf : get_repl_role o with
  | error e => rw [hf] at h; simp at h
  | ok tf_from =>
    rw [hf] at h
    cases ht : get_repl_role n with
    | error e => rw [ht] at h; simp at h
    | ok tf_to =>
      rw [ht] at h
      simp only [] at h
      by_cases hw : tf_from.weight > 0
      · rw [if_pos hw] at h
        by_cases hd : tf_from.role ≠
            (if rc then ReplRole.hub
             else if sd then ReplRole.consumer else tf_to.role)
        · rw [if_pos hd] at h
          by_cases hsd : sd = true
          · rw [if_pos hsd] at h
            simp only [List.singleton_append, Except.ok.injEq] at h
            exact Or.inr (Or.inr (Or.inr ⟨hsd, ⟨_, h.symm⟩⟩))
          · rw [if_neg hsd] at h
            simp only [Except.ok.injEq] at h
            exact Or.inr (Or.inl ⟨_, h.symm⟩)
        · rw [if_neg hd] at h
          by_cases hsd : sd = true
          · rw [if_pos hsd] at h
            simp only [List.nil_append, Except.ok.injEq] at h
            exact Or.inr (Or.inr (Or.inl ⟨hsd, h.symm⟩))
          · rw [if_neg hsd] at h
            simp only [Except.ok.injEq] at h
            exact Or.inl h.symm
      · rw [if_neg hw] at h
        exact Or.inl (Except.ok.inj h).symm

theorem replica_create_or_promote_no_role_change (n : Option String)
    (props : List (String × String)) (sc : Bool) (evs : List ReplEvent)
    (h : replica_create_or_promote n props sc = Except.ok evs) :
    ∀ x ∈ evs, nonRoleChange x := by
  unfold replica_create_or_promote at h
  cases ht : get_repl_role n with
  | error e => rw [ht] at h; simp at h
  | ok tf_to =>
    rw [ht] at h
    simp only [] at h
    by_cases hsc : sc = true
    · rw [if_pos hsc] at h
      rw [← Except.ok.inj h]
      intro x hx
      rcases List.mem_singleton.mp hx with rfl
      refine ⟨fun r hr => ?_, fun hr => ?_⟩ <;> cases hr
    · rw [if_neg hsc] at h
      rw [← Except.ok.inj h]
      intro x hx
      rcases List.mem_singleton.mp hx with rfl
      refine ⟨fun r hr => ?_, fun hr => ?_⟩ <;> cases hr

theorem syncProps_cond_no_role_change (c : Prop) [Decidable c]
    (d : List (String × String)) :
    ∀ x ∈ (if c then [ReplEvent.syncProps d] else []), nonRoleChange x := by
  by_cases hc : c
  · rw [if_pos hc]
    intro x hx
    rcases List.mem_singleton.mp hx with rfl
    refine ⟨fun r hr => ?_, fun hr => ?_⟩ <;> cases hr
  · rw [if_neg hc]
    intro x hx
    cases hx

theorem update_replica_split (target facts : EntAttrs) (observed : Observed)
    (evs : List ReplEvent)
    (h : update_replica target facts observed = Except.ok evs) :
    ∃ tf_from tf_to evs1 evs2,
      get_repl_role (vfromOf observed) = Except.ok tf_from ∧
      get_repl_role (vtoOf target) = Except.ok tf_to ∧
      (evs1 = [] ∨ replica_demote_or_delete (vfromOf observed) (vtoOf target)
        (ridChanged target facts observed) (tf_to.weight == 0)
        = Except.ok evs1) ∧
      (evs2 = [] ∨ replica_create_or_promote (vtoOf target)
        (replicaProps target facts observed).dset (tf_from.weight == 0)
        = Except.ok evs2) ∧
      evs = evs1 ++ evs2 ++
        (if tf_from.weight * tf_to.weight ≠ 0 then
          [ReplEvent.syncProps
            ((replicaProps target facts observed).dchanged.filter
              (fun p => !(p.1 == "replicaid")))]
        else []) := by
  unfold update_replica at h
  cases hf : get_repl_role (vfromOf observed) with
  | error e => rw [hf] at h; simp at h
  | ok tf_from =>
    rw [hf] at h
    cases ht : get_repl_role (vtoOf target) with
    | error e => rw [ht] at h; simp at h
    | ok tf_to =>
      rw [ht] at h
      simp only [] at h
      refine ⟨tf_from, tf_to, ?_⟩
      by_cases hc1 : (ridChanged target facts observed
          || decide (tf_from.weight > tf_to.weight)) = true
      · rw [if_pos hc1] at h
        cases h1 : replica_demote_or_delete (vfromOf observed) (vtoOf target)
            (ridChanged target facts observed) (tf_to.weight == 0) with
        | error e => rw [h1] at h; simp at h
        | ok evs1 =>
          rw [h1] at h
          simp only [] at h
          by_cases hc2 : (ridChanged target facts observed
              || decide (tf_from.weight < tf_to.weight)) = true
          · rw [if_pos hc2] at h
            cases h2 : replica_create_or_promote (vtoOf target)
                (replicaProps target facts observed).dset
                (tf_from.weight == 0) with
            | error e => rw [h2] at h; simp at h
            | ok evs2 =>
              rw [h2] at h
              simp only [] at h
              exact ⟨evs1, evs2, rfl, rfl, Or.inr rfl, Or.inr rfl, (Except.ok.inj h).symm⟩
          · rw [if_neg hc2] at h
            simp only [] at h
            exact ⟨evs1, [], rfl, rfl, Or.inr rfl, Or.inl rfl, (Except.ok.inj h).symm⟩
      · rw [if_neg hc1] at h
        simp only [] at h
        by_cases hc2 : (ridChanged target facts observed
            || decide (tf_from.weight < tf_to.weight)) = true
        · rw [if_pos hc2] at h
          cases h2 : replica_create_or_promote (vtoOf target)
              (replicaProps target facts observed).dset
              (tf_from.weight == 0) with
          | error e => rw [h2] at h; simp at h
          | ok evs2 =>
            rw [h2] at h
            simp only [] at h
            exact ⟨[], evs2, rfl, rfl, Or.inl rfl, Or.inr rfl, (Except.ok.inj h).symm⟩
        · rw [if_neg hc2] at h
          simp only [] at h
          exact ⟨[], [], rfl, rfl, Or.inl rfl, Or.inl rfl, (Except.ok.inj h).symm⟩

theorem c3_core (tf_to : RoleInfo) (evs1 rest evs : List ReplEvent)
    (hevs : evs = evs1 ++ rest)
    (hshape : evs1 = [] ∨ (∃ r, evs1 = [ReplEvent.demote r]) ∨
      ((tf_to.weight == 0) = true ∧ evs1 = [ReplEvent.deleteReplica]) ∨
      ((tf_to.weight == 0) = true ∧
        ∃ r, evs1 = [ReplEvent.demote r, ReplEvent.deleteReplica]))
    (hrest : ∀ x ∈ rest, nonRoleChange x)
    (hdel : ReplEvent.deleteReplica ∈ evs) :
    tf_to.weight = 0 ∧
    (∃ rest2,
      ((∃ r, evs = ReplEvent.demote r :: ReplEvent.deleteReplica :: rest2)
        ∨ evs = ReplEvent.deleteReplica :: rest2) ∧
      ∀ x ∈ rest2, nonRoleChange x) := by
  subst hevs
  rcases hshape with h0 | ⟨r, h0⟩ | ⟨hw, h0⟩ | ⟨hw, r, h0⟩ <;> subst h0
  · rw [List.nil_append] at hdel
    exact absurd rfl ((hrest _ hdel).2)
  · rcases List.mem_cons.mp hdel with hd | hd
    · cases hd
    · exact absurd rfl ((hrest _ hd).2)
  · exact ⟨(by simpa using hw : tf_to.weight = 0), rest, Or.inr rfl, hrest⟩
  · exact ⟨(by simpa using hw : tf_to.weight = 0), rest, Or.inl ⟨r, rfl⟩, hrest⟩

/-- C3 (corrected): whenever `update_replica` succeeds and its emitted
operations contain a replication-entry deletion, the desired role has
weight 0 (the entry is deleted only when replication is being removed
entirely), and every demotion precedes the deletion: the event list
starts with the deletion or with the single demotion followed by the
deletion, and no later event demotes or deletes. -/
theorem c3_delete_discipline (target facts : EntAttrs) (observed : Observed)
    (evs : List ReplEvent)
    (h : update_replica target facts observed = Except.ok evs)
    (hdel : ReplEvent.deleteReplica ∈ evs) :
    (∃ tf, get_repl_role (vtoOf target) = Except.ok tf ∧ tf.weight = 0) ∧
    (∃ rest,
      ((∃ r, evs = ReplEvent.demote r :: ReplEvent.deleteReplica :: rest)
        ∨ evs = ReplEvent.deleteReplica :: rest) ∧
      ∀ x ∈ rest, nonRoleChange x) := by
  obtain ⟨tf_from, tf_to, evs1, evs2, hf, ht, hok1, hok2, hevs⟩ :=
    update_replica_split target facts observed evs h
  have hrest : ∀ x ∈ evs2 ++
      (if tf_from.weight * tf_to.weight ≠ 0 then
        [ReplEvent.syncProps
          ((replicaProps target facts observed).dchanged.filter
            (fun p => !(p.1 == "replicaid")))]
      else []), nonRoleChange x := by
    intro x hx
    rcases List.mem_append.mp hx with hx | hx
    · rcases hok2 with h2 | h2
      · subst h2; cases hx
      · exact replica_create_or_promote_no_role_change _ _ _ _ h2 x hx
    · exact syncProps_cond_no_role_change _ _ x hx
  have hshape : evs1 = [] ∨ (∃ r, evs1 = [ReplEvent.demote r]) ∨
      ((tf_to.weight == 0) = true ∧ evs1 = [ReplEvent.deleteReplica]) ∨
      ((tf_to.weight == 0) = true ∧
        ∃ r, evs1 = [ReplEvent.demote r, ReplEvent.deleteReplica]) := by
    rcases hok1 with h1 | h1
    · exact Or.inl h1
    · exact replica_demote_or_delete_shape _ _ _ _ _ h1
  have hevs2 : evs = evs1 ++ (evs2 ++
      (if tf_from.weight * tf_to.weight ≠ 0 then
        [ReplEvent.syncProps
          ((replicaProps target facts observed).dchanged.filter
            (fun p => !(p.1 == "replicaid")))]
      else [])) := by
    rw [hevs, List.append_assoc]
  obtain ⟨hw, rest2, hform, hrest2⟩ :=
    c3_core tf_to evs1 _ evs hevs2 hshape hrest hdel
  exact ⟨⟨tf_to, ht, hw⟩, rest2, hform, hrest2⟩

/-- C3 (counterexample to the spec wording): the transition from an
observed supplier (type 3, flags 1, replica id 1) to a desired
`consumer` role without a desired replica id is treated as a replica-id
change (`str(None) != str(1)`), so the emitted operations are a demotion
to HUB, a promotion to consumer and a property synchronisation — not the
single demotion to consumer the claim requires. -/
theorem c3_counterexample :
    update_replica [("replicarole", PyObj.str "consumer")] []
        (some ("3", "1", some 1))
      = Except.ok [ReplEvent.demote ReplRole.hub,
          ReplEvent.promote ReplRole.consumer [],
          ReplEvent.syncProps [("nsDS5ReplicaId", "None")]] ∧
    [ReplEvent.demote ReplRole.hub,
        ReplEvent.promote ReplRole.consumer [],
        ReplEvent.syncProps [("nsDS5ReplicaId", "None")]]
      ≠ [ReplEvent.demote ReplRole.consumer] :=
  ⟨by rfl, by decide⟩

/-- Witness for C3: removing replication from an observed supplier whose
desired replica id matches (no rid change) emits exactly the demotion to
consumer followed by the deletion, and the theorem applies: the desired
role weight is 0. -/
theorem c3_witness :
    update_replica [("replicaid", PyObj.int 1)] [] (some ("3", "1", some 1))
      = Except.ok [ReplEvent.demote ReplRole.consumer,
          ReplEvent.deleteReplica] ∧
    (∃ tf, get_repl_role (vtoOf [("replicaid", PyObj.int 1)])
      = Except.ok tf ∧ tf.weight = 0) := by
  have h : update_replica [("replicaid", PyObj.int 1)] []
      (some ("3", "1", some 1))
      = Except.ok [ReplEvent.demote ReplRole.consumer,
          ReplEvent.deleteReplica] := by rfl
  exact ⟨h, (c3_delete_discipline _ _ _ _ h (by simp)).1⟩

end Ds389
